import Mathlib

set_option maxRecDepth 8000

/-!
Verification of the SDLC pipeline core: the merger/deduper and parallel
validator (parallel_validator.py), the fix-loop controller and the phase
sequencer (orchestrator.py).  Python values are embedded shallowly:
strings as `String`, Python `list` as `List`, Python `set[str]` as
`Finset String`, unbounded `int` arithmetic as `Int`, exceptions as
explicit outcome constructors, and each external collaborator as an
input function supplied to the embedded control flow.
-/

/-- A single reported defect, as produced by validation collaborators
(`Finding` in reviewer.py / parallel_validator.py). -/
structure Finding where
  id : String
  severity : String
  location : String
  problem : String
  fix_instruction : String
  fix_code : String
  fix_agent : String
deriving Repr, DecidableEq

/-- One per-instance result handed to `_merge_results`: either the value
returned by the agent method (carrying its findings) or the exception it
raised (`asyncio.gather(..., return_exceptions=True)`). -/
inductive AgentOutcome where
  | exc (msg : String)
  | ok (findings : List Finding)
deriving Repr, DecidableEq

/-- `isinstance(result, Exception)` test used by the merger. -/
def AgentOutcome.isExc : AgentOutcome → Bool
  | AgentOutcome.exc _ => true
  | AgentOutcome.ok _ => false

/-- `MergedResult` from parallel_validator.py. -/
structure MergedResult where
  findings : List Finding
  agent_count : Nat
  fix_required : Bool
  success : Bool
  error : Option String
deriving Repr, DecidableEq

/-- Dedup key of `_merge_results`: the string
`f"{f.location}:{f.problem[:50]}"` (a colon-joined string, not a pair). -/
def dedupKey (f : Finding) : String :=
  f.location ++ ":" ++ f.problem.take 50

/-- Inner loop of `_merge_results` over one surviving result's findings:
threads the `seen` key set and appends first-seen findings. -/
def mergeAddFindings : List Finding → List String → List Finding → List String × List Finding
  | [], seen, acc => (seen, acc)
  | f :: fs, seen, acc =>
    if dedupKey f ∈ seen then mergeAddFindings fs seen acc
    else mergeAddFindings fs (dedupKey f :: seen) (acc ++ [f])

/-- Outer loop of `_merge_results` over the per-instance results in fixed
submission order, collecting deduplicated findings and error strings. -/
def mergeGo : List AgentOutcome → Nat → List String → List Finding → List String → List Finding × List String
  | [], _, _, accF, accE => (accF, accE)
  | AgentOutcome.exc msg :: rest, i, seen, accF, accE =>
    mergeGo rest (i + 1) seen accF (accE ++ ["Agent " ++ toString i ++ ": " ++ msg])
  | AgentOutcome.ok fs :: rest, i, seen, accF, accE =>
    let p := mergeAddFindings fs seen accF
    mergeGo rest (i + 1) p.1 p.2 accE

/-- `ParallelValidator._merge_results`. -/
def mergeResults (results : List AgentOutcome) : MergedResult :=
  let p := mergeGo results 0 [] [] []
  let successful := (results.filter (fun r => !r.isExc)).length
  { findings := p.1
    agent_count := successful
    fix_required := decide (0 < p.1.length)
    success := decide (0 < successful)
    error := if p.2 = [] then none else some (String.intercalate "; " p.2) }

/-- The findings of the surviving (non-raising) results, concatenated in
submission order — the stream the merger's nested loops walk through. -/
def okFindings : List AgentOutcome → List Finding
  | [] => []
  | AgentOutcome.exc _ :: rest => okFindings rest
  | AgentOutcome.ok fs :: rest => fs ++ okFindings rest

/-- Modelled from the spec's words for comparison with the merger:
first-occurrence-wins deduplication by `dedupKey`, relative to an already
`seen` key set. -/
def dedupFirstWins : List String → List Finding → List Finding
  | _, [] => []
  | seen, f :: fs =>
    if dedupKey f ∈ seen then dedupFirstWins seen fs
    else f :: dedupFirstWins (dedupKey f :: seen) fs

/-- Key set accumulated by a `dedupFirstWins` pass. -/
def seenAfter : List String → List Finding → List String
  | seen, [] => seen
  | seen, f :: fs =>
    if dedupKey f ∈ seen then seenAfter seen fs
    else seenAfter (dedupKey f :: seen) fs

/-- Entry of the `finding_counts` insertion-ordered dict of
`validate_with_consensus`: key, latest finding stored under it, count. -/
def bumpKey : List (String × Finding × Nat) → String → Finding → List (String × Finding × Nat)
  | [], k, f => [(k, f, 1)]
  | (k0, g, c) :: rest, k, f =>
    if k0 = k then (k0, f, c + 1) :: rest
    else (k0, g, c) :: bumpKey rest k f

/-- Inner loop of `validate_with_consensus` over one result's findings. -/
def consensusAdd : List Finding → List (String × Finding × Nat) → List (String × Finding × Nat)
  | [], m => m
  | f :: fs, m => consensusAdd fs (bumpKey m (dedupKey f) f)

/-- Outer loop of `validate_with_consensus` over the per-instance results. -/
def consensusCollect : List AgentOutcome → List (String × Finding × Nat) → List (String × Finding × Nat)
  | [], m => m
  | AgentOutcome.exc _ :: rest, m => consensusCollect rest m
  | AgentOutcome.ok fs :: rest, m => consensusCollect rest (consensusAdd fs m)

/-- Merge part of `ParallelValidator.validate_with_consensus` (the fan-out
itself is the same gather as `validate_parallel`): keep a finding iff its
key's occurrence count reaches `minAgreement` (default 2). -/
def consensusMerge (results : List AgentOutcome) (minAgreement : Nat := 2) : MergedResult :=
  let m := consensusCollect results []
  let consensus := (m.filter (fun e => decide (minAgreement ≤ e.2.2))).map (fun e => e.2.1)
  let successful := (results.filter (fun r => !r.isExc)).length
  { findings := consensus
    agent_count := successful
    fix_required := decide (0 < consensus.length)
    success := decide (0 < successful)
    error := none }

example :
    (mergeResults [AgentOutcome.ok [⟨"F1", "major", "a.tsx:10", "p", "", "", "builder"⟩],
      AgentOutcome.ok [⟨"F9", "minor", "a.tsx:10", "p", "", "", "builder"⟩,
        ⟨"F2", "major", "a.tsx:20", "q", "", "", "builder"⟩]]).findings.length = 2 := by decide

example : (mergeResults [AgentOutcome.exc "boom", AgentOutcome.exc "bang"]).success = false := by decide

example : (mergeResults [AgentOutcome.exc "boom", AgentOutcome.exc "bang"]).error
    = some "Agent 0: boom; Agent 1: bang" := by decide

example :
    (consensusMerge [AgentOutcome.ok [⟨"F1", "major", "a", "p", "", "", "b"⟩],
      AgentOutcome.ok [⟨"F2", "major", "a", "p", "", "", "b"⟩]] 2).findings.length = 1 := by decide

theorem mergeAddFindings_eq (fs : List Finding) (seen : List String) (acc : List Finding) :
    mergeAddFindings fs seen acc = (seenAfter seen fs, acc ++ dedupFirstWins seen fs) := by
  induction fs generalizing seen acc with
  | nil => simp [mergeAddFindings, seenAfter, dedupFirstWins]
  | cons f fs ih =>
    simp only [mergeAddFindings, seenAfter, dedupFirstWins]
    by_cases h : dedupKey f ∈ seen
    · simp [h, ih]
    · simp [h, ih]

theorem dedupFirstWins_append (fs gs : List Finding) (seen : List String) :
    dedupFirstWins seen (fs ++ gs)
      = dedupFirstWins seen fs ++ dedupFirstWins (seenAfter seen fs) gs := by
  induction fs generalizing seen with
  | nil => simp [dedupFirstWins, seenAfter]
  | cons f fs ih =>
    simp only [List.cons_append, dedupFirstWins, seenAfter]
    by_cases h : dedupKey f ∈ seen
    · simp [h, ih]
    · simp [h, ih]

theorem mergeGo_findings (rs : List AgentOutcome) (i : Nat) (seen : List String)
    (accF : List Finding) (accE : List String) :
    (mergeGo rs i seen accF accE).1 = accF ++ dedupFirstWins seen (okFindings rs) := by
  induction rs generalizing i seen accF accE with
  | nil => simp [mergeGo, okFindings, dedupFirstWins]
  | cons r rest ih =>
    cases r with
    | exc msg => simp [mergeGo, okFindings, ih]
    | ok fs =>
      simp only [mergeGo, okFindings, mergeAddFindings_eq, ih, dedupFirstWins_append]
      simp

theorem mergeResults_findings (rs : List AgentOutcome) :
    (mergeResults rs).findings = dedupFirstWins [] (okFindings rs) := by
  simp [mergeResults, mergeGo_findings]

theorem mem_dedupFirstWins_keys (l : List Finding) (seen : List String) (a : String) :
    (a ∈ (dedupFirstWins seen l).map dedupKey) ↔ a ∈ l.map dedupKey ∧ a ∉ seen := by
  induction l generalizing seen with
  | nil => simp [dedupFirstWins]
  | cons f fs ih =>
    simp only [dedupFirstWins]
    by_cases h : dedupKey f ∈ seen
    · rw [if_pos h]
      rw [ih seen]
      simp only [List.map_cons, List.mem_cons]
      constructor
      · exact fun hx => ⟨Or.inr hx.1, hx.2⟩
      · rintro ⟨ha | ha, hns⟩
        · exact absurd (ha ▸ h) hns
        · exact ⟨ha, hns⟩
    · rw [if_neg h]
      simp only [List.map_cons, List.mem_cons, ih (dedupKey f :: seen)]
      constructor
      · rintro (ha | ⟨ha, hns⟩)
        · exact ⟨Or.inl ha, ha ▸ h⟩
        · exact ⟨Or.inr ha, fun hs => hns (Or.inr hs)⟩
      · rintro ⟨ha | ha, hns⟩
        · exact Or.inl ha
        · by_cases hak : a = dedupKey f
          · exact Or.inl hak
          · exact Or.inr ⟨ha, by
              intro hmem
              rcases hmem with h1 | h2
              · exact hak h1
              · exact hns h2⟩

theorem dedupFirstWins_keys_nodup (l : List Finding) (seen : List String) :
    ((dedupFirstWins seen l).map dedupKey).Nodup := by
  induction l generalizing seen with
  | nil => simp [dedupFirstWins]
  | cons f fs ih =>
    simp only [dedupFirstWins]
    by_cases h : dedupKey f ∈ seen
    · rw [if_pos h]
      exact ih seen
    · rw [if_neg h]
      simp only [List.map_cons, List.nodup_cons]
      refine ⟨fun hmem => ?_, ih (dedupKey f :: seen)⟩
      have := (mem_dedupFirstWins_keys fs (dedupKey f :: seen) (dedupKey f)).1 hmem
      exact this.2 (List.mem_cons_self _ _)

theorem dedupFirstWins_keys_toFinset (l : List Finding) (seen : List String) :
    ((dedupFirstWins seen l).map dedupKey).toFinset
      = (l.map dedupKey).toFinset \ seen.toFinset := by
  ext a
  simp only [List.mem_toFinset, Finset.mem_sdiff, mem_dedupFirstWins_keys]

theorem dedupFirstWins_length (l : List Finding) (seen : List String) :
    (dedupFirstWins seen l).length
      = ((l.map dedupKey).toFinset \ seen.toFinset).card := by
  have h1 : (dedupFirstWins seen l).length = ((dedupFirstWins seen l).map dedupKey).length := by
    rw [List.length_map]
  rw [h1, ← List.toFinset_card_of_nodup (dedupFirstWins_keys_nodup l seen),
    dedupFirstWins_keys_toFinset]

theorem dedupFirstWins_subset (l : List Finding) (seen : List String) :
    dedupFirstWins seen l ⊆ l := by
  induction l generalizing seen with
  | nil => simp [dedupFirstWins]
  | cons f fs ih =>
    simp only [dedupFirstWins]
    by_cases h : dedupKey f ∈ seen
    · simp only [h, if_true]
      exact (ih seen).trans (List.subset_cons_self _ _)
    · simp only [h, if_false]
      exact List.cons_subset_cons f (ih (dedupKey f :: seen))

/-- C3 (counterexample) input: two findings with distinct
`(location, problem[:50])` pairs that produce the same colon-joined key. -/
def keyClashA : Finding := ⟨"F1", "major", "a:b", "c", "", "", "builder"⟩

/-- C3 (counterexample) input, second finding of the colliding pair. -/
def keyClashB : Finding := ⟨"F2", "major", "a", "b:c", "", "", "builder"⟩

/-- C3: as stated the claim is false — the dedup key is the colon-joined
string, and distinct `(location, problem[:50])` pairs can collide, so a
finding with a fresh pair key is dropped and the output size (1) is not the
number of distinct pair keys (2). -/
theorem merge_pair_key_counterexample :
    (keyClashA.location, keyClashA.problem.take 50)
      ≠ (keyClashB.location, keyClashB.problem.take 50) ∧
    dedupKey keyClashA = dedupKey keyClashB ∧
    (mergeResults [AgentOutcome.ok [keyClashA, keyClashB]]).findings = [keyClashA] ∧
    ([keyClashA, keyClashB].map (fun f => (f.location, f.problem.take 50))).toFinset.card = 2 := by
  refine ⟨by decide, by decide, by decide, by decide⟩

/-- C3 (amended): `_merge_results` deduplicates by the colon-joined string
key `location ++ ":" ++ problem[:50]`: the output is the first-occurrence-wins
dedup of the surviving results' findings taken in submission order, each
string key appears exactly once, and the output size equals the number of
distinct string keys across all surviving results. -/
theorem merge_results_dedup (rs : List AgentOutcome) :
    (mergeResults rs).findings = dedupFirstWins [] (okFindings rs) ∧
    ((mergeResults rs).findings.map dedupKey).Nodup ∧
    (mergeResults rs).findings.length = ((okFindings rs).map dedupKey).toFinset.card := by
  refine ⟨mergeResults_findings rs, ?_, ?_⟩
  · rw [mergeResults_findings rs]
    exact dedupFirstWins_keys_nodup _ _
  · rw [mergeResults_findings rs, dedupFirstWins_length]
    simp

/-- C4: a raising instance contributes no findings; `agent_count` counts the
non-raising results; `success` holds iff at least one instance survived (all
raising is the only failing case); with K=2, one raising and one succeeding
gives success, one contributor, and findings only from the survivor. -/
theorem merge_partial_failure (rs : List AgentOutcome) (e1 e2 : String) (fs : List Finding) :
    (mergeResults rs).agent_count = (rs.filter (fun r => !r.isExc)).length ∧
    ((mergeResults rs).success = true ↔ 0 < (mergeResults rs).agent_count) ∧
    (mergeResults rs).findings ⊆ okFindings rs ∧
    ((mergeResults rs).success = false ↔ ∀ r ∈ rs, r.isExc = true) ∧
    (mergeResults [AgentOutcome.exc e1, AgentOutcome.ok fs]).success = true ∧
    (mergeResults [AgentOutcome.exc e1, AgentOutcome.ok fs]).agent_count = 1 ∧
    (mergeResults [AgentOutcome.exc e1, AgentOutcome.ok fs]).findings ⊆ fs ∧
    (mergeResults [AgentOutcome.exc e1, AgentOutcome.exc e2]).success = false ∧
    (mergeResults [AgentOutcome.exc e1, AgentOutcome.exc e2]).findings = [] := by
  refine ⟨rfl, by simp [mergeResults], ?_, ?_, ?_, ?_, ?_, ?_, ?_⟩
  · rw [mergeResults_findings rs]
    exact dedupFirstWins_subset _ _
  · simp only [mergeResults, decide_eq_false_iff_not, Nat.not_lt, Nat.le_zero,
      List.length_eq_zero, List.filter_eq_nil_iff]
    constructor
    · intro h r hr
      have := h r hr
      simpa using this
    · intro h r hr
      simp [h r hr]
  · simp [mergeResults, AgentOutcome.isExc]
  · simp [mergeResults, AgentOutcome.isExc]
  · have h := mergeResults_findings [AgentOutcome.exc e1, AgentOutcome.ok fs]
    rw [h]
    simp only [okFindings, List.append_nil]
    exact dedupFirstWins_subset _ _
  · simp [mergeResults, AgentOutcome.isExc]
  · rw [mergeResults_findings]
    simp [okFindings, dedupFirstWins]

/-- Keys of the `finding_counts` association map, in insertion order. -/
def mapKeys (m : List (String × Finding × Nat)) : List String :=
  m.map (fun e => e.1)

/-- Total count recorded in the map for key `k` (0 if absent). -/
def mapCount : List (String × Finding × Nat) → String → Nat
  | [], _ => 0
  | e :: rest, k => (if e.1 = k then e.2.2 else 0) + mapCount rest k

/-- Well-formedness of the `finding_counts` map: keys are unique, every
count is positive, and each entry stores a finding with that entry's key. -/
def ConsensusWF (m : List (String × Finding × Nat)) : Prop :=
  (mapKeys m).Nodup ∧ (∀ e ∈ m, 1 ≤ e.2.2) ∧ ∀ e ∈ m, dedupKey e.2.1 = e.1

theorem bumpKey_keys (m : List (String × Finding × Nat)) (k : String) (f : Finding) :
    mapKeys (bumpKey m k f) = if k ∈ mapKeys m then mapKeys m else mapKeys m ++ [k] := by
  induction m with
  | nil => simp [bumpKey, mapKeys]
  | cons e rest ih =>
    obtain ⟨k0, g, c⟩ := e
    simp only [bumpKey, mapKeys, List.map_cons, List.mem_cons]
    by_cases h : k0 = k
    · subst h
      simp [mapKeys]
    · rw [if_neg h]
      have hk : ¬k = k0 := fun hc => h hc.symm
      simp only [List.map_cons, mapKeys] at ih ⊢
      rw [ih]
      by_cases hmem : k ∈ rest.map (fun e => e.1)
      · simp [hmem, hk]
      · simp [hmem, hk]

theorem bumpKey_count_self (m : List (String × Finding × Nat)) (k : String) (f : Finding) :
    mapCount (bumpKey m k f) k = mapCount m k + 1 := by
  induction m with
  | nil => simp [bumpKey, mapCount]
  | cons e rest ih =>
    obtain ⟨k0, g, c⟩ := e
    simp only [bumpKey]
    by_cases h : k0 = k
    · rw [if_pos h]
      simp only [mapCount, if_pos h]
      omega
    · rw [if_neg h]
      simp only [mapCount, if_neg h, ih]
      omega

theorem bumpKey_count_other (m : List (String × Finding × Nat)) (k k' : String) (f : Finding)
    (hne : k' ≠ k) : mapCount (bumpKey m k f) k' = mapCount m k' := by
  induction m with
  | nil =>
    simp only [bumpKey, mapCount]
    rw [if_neg (fun hc => hne hc.symm)]
  | cons e rest ih =>
    obtain ⟨k0, g, c⟩ := e
    simp only [bumpKey]
    by_cases h : k0 = k
    · rw [if_pos h]
      have hk0 : ¬k0 = k' := fun hc => hne (hc.symm.trans h)
      simp only [mapCount, if_neg hk0]
    · rw [if_neg h]
      simp only [mapCount, ih]

theorem consensusAdd_count (fs : List Finding) (m : List (String × Finding × Nat)) (k : String) :
    mapCount (consensusAdd fs m) k
      = mapCount m k + fs.countP (fun f => decide (dedupKey f = k)) := by
  induction fs generalizing m with
  | nil => simp [consensusAdd]
  | cons f fs ih =>
    simp only [consensusAdd, List.countP_cons, ih]
    by_cases h : dedupKey f = k
    · subst h
      rw [bumpKey_count_self]
      simp
      omega
    · rw [bumpKey_count_other m _ k f (fun hc => h hc.symm)]
      simp [h]

theorem consensusCollect_count (rs : List AgentOutcome) (m : List (String × Finding × Nat))
    (k : String) :
    mapCount (consensusCollect rs m) k
      = mapCount m k + (okFindings rs).countP (fun f => decide (dedupKey f = k)) := by
  induction rs generalizing m with
  | nil => simp [consensusCollect, okFindings]
  | cons r rest ih =>
    cases r with
    | exc msg => simp [consensusCollect, okFindings, ih]
    | ok fs =>
      simp only [consensusCollect, okFindings, List.countP_append, ih, consensusAdd_count]
      omega

theorem bumpKey_mem (m : List (String × Finding × Nat)) (k : String) (f : Finding) :
    ∀ e ∈ bumpKey m k f, e ∈ m ∨ (e.1 = k ∧ e.2.1 = f ∧ 1 ≤ e.2.2) := by
  induction m with
  | nil =>
    intro e he
    simp only [bumpKey, List.mem_singleton] at he
    subst he
    exact Or.inr ⟨rfl, rfl, le_refl 1⟩
  | cons e0 rest ih =>
    obtain ⟨k0, g, c⟩ := e0
    intro e he
    simp only [bumpKey] at he
    by_cases h : k0 = k
    · rw [if_pos h] at he
      rcases List.mem_cons.1 he with rfl | hrest
      · exact Or.inr ⟨h, rfl, Nat.le_add_left 1 c⟩
      · exact Or.inl (List.mem_cons_of_mem _ hrest)
    · rw [if_neg h] at he
      rcases List.mem_cons.1 he with rfl | hrest
      · exact Or.inl (List.mem_cons_self _ _)
      · rcases ih e hrest with hm | hk
        · exact Or.inl (List.mem_cons_of_mem _ hm)
        · exact Or.inr hk

theorem mem_keys_bumpKey (m : List (String × Finding × Nat)) (k k' : String) (f : Finding) :
    k' ∈ mapKeys (bumpKey m k f) ↔ k' ∈ mapKeys m ∨ k' = k := by
  rw [bumpKey_keys]
  by_cases h : k ∈ mapKeys m
  · rw [if_pos h]
    constructor
    · exact fun hx => Or.inl hx
    · rintro (hx | rfl)
      · exact hx
      · exact h
  · rw [if_neg h]
    simp [List.mem_append]

theorem bumpKey_wf (m : List (String × Finding × Nat)) (k : String) (f : Finding)
    (hwf : ConsensusWF m) (hf : dedupKey f = k) : ConsensusWF (bumpKey m k f) := by
  obtain ⟨hnd, hpos, hkey⟩ := hwf
  refine ⟨?_, ?_, ?_⟩
  · rw [bumpKey_keys]
    by_cases h : k ∈ mapKeys m
    · rw [if_pos h]
      exact hnd
    · rw [if_neg h]
      have hperm : (mapKeys m ++ [k]).Perm (k :: mapKeys m) := List.perm_append_singleton k (mapKeys m)
      exact hperm.nodup_iff.2 (List.nodup_cons.2 ⟨h, hnd⟩)
  · intro e he
    rcases bumpKey_mem m k f e he with hm | ⟨_, _, hc⟩
    · exact hpos e hm
    · exact hc
  · intro e he
    rcases bumpKey_mem m k f e he with hm | ⟨h1, h2, _⟩
    · exact hkey e hm
    · rw [h2, hf, h1]

theorem consensusAdd_wf (fs : List Finding) (m : List (String × Finding × Nat))
    (hwf : ConsensusWF m) : ConsensusWF (consensusAdd fs m) := by
  induction fs generalizing m with
  | nil => exact hwf
  | cons f fs ih => exact ih _ (bumpKey_wf m (dedupKey f) f hwf rfl)

theorem consensusCollect_wf (rs : List AgentOutcome) (m : List (String × Finding × Nat))
    (hwf : ConsensusWF m) : ConsensusWF (consensusCollect rs m) := by
  induction rs generalizing m with
  | nil => exact hwf
  | cons r rest ih =>
    cases r with
    | exc msg => exact ih _ hwf
    | ok fs => exact ih _ (consensusAdd_wf fs m hwf)

theorem mem_keys_consensusAdd (fs : List Finding) (m : List (String × Finding × Nat))
    (k : String) :
    k ∈ mapKeys (consensusAdd fs m) ↔ k ∈ mapKeys m ∨ k ∈ fs.map dedupKey := by
  induction fs generalizing m with
  | nil => simp [consensusAdd]
  | cons f fs ih =>
    simp only [consensusAdd, ih, mem_keys_bumpKey, List.map_cons, List.mem_cons]
    tauto

theorem mem_keys_consensusCollect (rs : List AgentOutcome) (m : List (String × Finding × Nat))
    (k : String) :
    k ∈ mapKeys (consensusCollect rs m) ↔ k ∈ mapKeys m ∨ k ∈ (okFindings rs).map dedupKey := by
  induction rs generalizing m with
  | nil => simp [consensusCollect, okFindings]
  | cons r rest ih =>
    cases r with
    | exc msg => simp [consensusCollect, okFindings, ih]
    | ok fs =>
      simp only [consensusCollect, okFindings, ih, mem_keys_consensusAdd, List.map_append,
        List.mem_append]
      tauto

theorem mapCount_eq_zero (m : List (String × Finding × Nat)) (k : String)
    (h : k ∉ mapKeys m) : mapCount m k = 0 := by
  induction m with
  | nil => rfl
  | cons e rest ih =>
    simp only [mapKeys, List.map_cons, List.mem_cons, not_or] at h
    have h1 : ¬e.1 = k := fun hc => h.1 hc.symm
    have h2 : mapCount rest k = 0 := ih h.2
    simp only [mapCount, if_neg h1, h2]

theorem mapCount_entry (m : List (String × Finding × Nat)) (e : String × Finding × Nat)
    (hnd : (mapKeys m).Nodup) (he : e ∈ m) : mapCount m e.1 = e.2.2 := by
  induction m with
  | nil => cases he
  | cons e0 rest ih =>
    simp only [mapKeys, List.map_cons, List.nodup_cons] at hnd
    rcases List.mem_cons.1 he with rfl | hrest
    · have hz : mapCount rest e.1 = 0 := mapCount_eq_zero rest e.1 (by
        intro hc
        exact hnd.1 (by simpa [mapKeys] using hc))
      simp only [mapCount, if_pos rfl, hz]
      simp
    · have hne : ¬e0.1 = e.1 := by
        intro hc
        exact hnd.1 (hc ▸ (List.mem_map.2 ⟨e, hrest, rfl⟩))
      have := ih hnd.2 hrest
      simp only [mapCount, if_neg hne, this]
      simp

theorem mem_mapKeys_exists (m : List (String × Finding × Nat)) (k : String) :
    k ∈ mapKeys m ↔ ∃ e ∈ m, e.1 = k := by
  simp [mapKeys, List.mem_map]

theorem consensusMerge_findings (rs : List AgentOutcome) (m : Nat) :
    (consensusMerge rs m).findings
      = ((consensusCollect rs []).filter (fun e => decide (m ≤ e.2.2))).map (fun e => e.2.1) := rfl

theorem map_dedup_entries (l : List (String × Finding × Nat))
    (h : ∀ e ∈ l, dedupKey e.2.1 = e.1) :
    l.map (fun e => dedupKey e.2.1) = l.map (fun e => e.1) := by
  induction l with
  | nil => simp
  | cons e rest ih =>
    simp only [List.map_cons]
    rw [h e (List.mem_cons_self _ _), ih (fun x hx => h x (List.mem_cons_of_mem _ hx))]

theorem consensusWF_nil : ConsensusWF [] := by
  refine ⟨?_, ?_, ?_⟩ <;> simp [mapKeys]

/-- C8 (counterexample) input: a finding that one instance reports twice. -/
def dupFind : Finding := ⟨"C1", "major", "x.py", "dup problem", "", "", "builder"⟩

/-- C8: as stated the claim is false — `validate_with_consensus` counts key
occurrences, not distinct results: a key occurring twice inside a single
instance's findings reaches the default threshold 2 and is kept, although it
occurs in only one of the K results. -/
theorem consensus_single_result_counterexample :
    (consensusMerge [AgentOutcome.ok [dupFind, dupFind]] 2).findings = [dupFind] ∧
    ([AgentOutcome.ok [dupFind, dupFind]] : List AgentOutcome).countP
        (fun r => match r with
          | AgentOutcome.ok fs => decide (dedupKey dupFind ∈ fs.map dedupKey)
          | AgentOutcome.exc _ => false) = 1 ∧
    (1 : Nat) < 2 := by
  refine ⟨by decide, by decide, by decide⟩

/-- C8 (amended): for `minAgreement ≥ 1`, the consensus merge keeps exactly
the keys whose total occurrence count over the surviving results' findings
(occurrences within one instance's result each counting) reaches
`minAgreement`; each kept key appears once, and `agent_count` still counts
the surviving results. -/
theorem consensus_occurrence_count (rs : List AgentOutcome) (m : Nat) (hm : 1 ≤ m) :
    (∀ k : String,
      (∃ f ∈ (consensusMerge rs m).findings, dedupKey f = k)
        ↔ m ≤ (okFindings rs).countP (fun f => decide (dedupKey f = k))) ∧
    ((consensusMerge rs m).findings.map dedupKey).Nodup ∧
    (consensusMerge rs m).agent_count = (rs.filter (fun r => !r.isExc)).length := by
  have hwf := consensusCollect_wf rs [] consensusWF_nil
  obtain ⟨hnd, hpos, hkey⟩ := hwf
  have hcountM : ∀ k, mapCount (consensusCollect rs []) k
      = (okFindings rs).countP (fun f => decide (dedupKey f = k)) := by
    intro k
    have := consensusCollect_count rs [] k
    simpa [mapCount] using this
  refine ⟨?_, ?_, rfl⟩
  · intro k
    rw [consensusMerge_findings]
    constructor
    · rintro ⟨f, hfmem, hk⟩
      obtain ⟨e, hefil, heq⟩ := List.mem_map.1 hfmem
      obtain ⟨heM, hpe⟩ := List.mem_filter.1 hefil
      have hme : m ≤ e.2.2 := of_decide_eq_true hpe
      have hke : e.1 = k := by
        rw [← hkey e heM, heq, hk]
      have hcnt : mapCount (consensusCollect rs []) e.1 = e.2.2 :=
        mapCount_entry _ e hnd heM
      rw [← hcountM k, ← hke, hcnt]
      exact hme
    · intro h
      have h1 : 0 < (okFindings rs).countP (fun f => decide (dedupKey f = k)) :=
        Nat.lt_of_lt_of_le (Nat.lt_of_lt_of_le Nat.zero_lt_one hm) h
      obtain ⟨f0, hf0, hpf0⟩ := List.countP_pos_iff.1 h1
      have hf0k : dedupKey f0 = k := of_decide_eq_true hpf0
      have hkeys : k ∈ mapKeys (consensusCollect rs []) := by
        rw [mem_keys_consensusCollect]
        exact Or.inr (List.mem_map.2 ⟨f0, hf0, hf0k⟩)
      obtain ⟨e, heM, hek⟩ := (mem_mapKeys_exists _ k).1 hkeys
      have hcnt : mapCount (consensusCollect rs []) e.1 = e.2.2 :=
        mapCount_entry _ e hnd heM
      have hme : m ≤ e.2.2 := by
        rw [← hcnt, hek, hcountM k]
        exact h
      refine ⟨e.2.1, List.mem_map.2 ⟨e, List.mem_filter.2 ⟨heM, decide_eq_true hme⟩, rfl⟩, ?_⟩
      rw [hkey e heM, hek]
  · rw [consensusMerge_findings, List.map_map]
    have hmc : (((consensusCollect rs []).filter (fun e => decide (m ≤ e.2.2))).map
          (dedupKey ∘ fun e => e.2.1))
        = ((consensusCollect rs []).filter (fun e => decide (m ≤ e.2.2))).map (fun e => e.1) := by
      refine map_dedup_entries _ ?_
      intro e he
      exact hkey e (List.mem_filter.1 he).1
    rw [hmc]
    have hsub : (((consensusCollect rs []).filter (fun e => decide (m ≤ e.2.2))).map
          (fun e => e.1)).Sublist ((consensusCollect rs []).map (fun e => e.1)) :=
      (List.filter_sublist _).map _
    exact hnd.sublist hsub

/-- C8 (witness): the amended theorem applied at a concrete two-result input
with the default threshold 2. -/
theorem consensus_occurrence_count_witness :
    1 ≤ 2 ∧
    ((∀ k : String,
      (∃ f ∈ (consensusMerge [AgentOutcome.ok [dupFind], AgentOutcome.ok [dupFind]] 2).findings,
          dedupKey f = k)
        ↔ 2 ≤ (okFindings [AgentOutcome.ok [dupFind], AgentOutcome.ok [dupFind]]).countP
            (fun f => decide (dedupKey f = k))) ∧
    ((consensusMerge [AgentOutcome.ok [dupFind], AgentOutcome.ok [dupFind]] 2).findings.map
        dedupKey).Nodup ∧
    (consensusMerge [AgentOutcome.ok [dupFind], AgentOutcome.ok [dupFind]] 2).agent_count
      = ([AgentOutcome.ok [dupFind], AgentOutcome.ok [dupFind]].filter
          (fun r => !r.isExc)).length) :=
  ⟨by decide, consensus_occurrence_count [AgentOutcome.ok [dupFind], AgentOutcome.ok [dupFind]] 2 (by decide)⟩

/-- Result enum of a fix-loop (`FixLoopResult` in orchestrator.py). -/
inductive FixLoopResult where
  | FIXED
  | MAX_LOOPS_REACHED
  | FAILED
deriving Repr, DecidableEq

/-- `FixLoopStats` appended to `task.fix_loop_stats`; `issues_fixed` is a
Python `int` and may be negative, hence `Int`. -/
structure FixLoopStats where
  phase : String
  loops_run : Nat
  issues_fixed : Int
  issues_remaining : Nat
  max_loops_reached : Bool
deriving Repr, DecidableEq

/-- Shape of a `validate_func` result consumed by the loop
(`fix_required` plus `findings`). -/
structure ValidationResult where
  fix_required : Bool
  findings : List Finding
deriving Repr, DecidableEq

/-- Shape of `DebuggerAgent.analyze_failure`'s result as the loop reads it. -/
structure DebugResult where
  fix_required : Bool
  findings : List Finding
deriving Repr, DecidableEq

/-- One `fix_func` call: it can raise (the exception then propagates out of
`_run_fix_loop`) or return a result with a `success` flag and error text. -/
inductive FixOutcome where
  | raised (msg : String)
  | result (success : Bool) (error : String)
deriving Repr, DecidableEq

/-- How one embedded `_run_fix_loop` run ends: a normal return, a propagated
exception, or exhaustion of the evaluation fuel (an artefact of the
embedding, never of the source loop). -/
inductive LoopExit where
  | done (r : FixLoopResult) (remaining : List Finding)
  | raised (msg : String)
  | fuelOut
deriving Repr, DecidableEq

/-- Observable outcome of one `_run_fix_loop` run: the exit, the
`FixLoopStats` appended to the task (if any), and how often `fix_func`,
`validate_func` and `debugger.analyze_failure` were awaited. -/
structure LoopRun where
  exit : LoopExit
  stats : Option FixLoopStats
  fixCalls : Nat
  validateCalls : Nat
  debugCalls : Nat
deriving Repr, DecidableEq

/-- The id-set signature `{f.id for f in current_findings}`. -/
def idSet (fs : List Finding) : Finset String :=
  (fs.map Finding.id).toFinset

/-- `MAX_IDENTICAL_LOOPS` from orchestrator.py. -/
def MAX_IDENTICAL_LOOPS : Nat := 3

/-- Python slice `previous_finding_ids[-3:]`: the last (up to) three entries. -/
def lastThree (l : List (Finset String)) : List (Finset String) :=
  l.drop (l.length - MAX_IDENTICAL_LOOPS)

/-- `identical_count`: how many of the last three stored signatures equal the
current one. -/
def countIdentical (prev : List (Finset String)) (cur : Finset String) : Nat :=
  (lastThree prev).countP (fun s => decide (s = cur))

/-- Body of the `while current_findings:` loop of
`SDLCOrchestrator._run_fix_loop`, with the mutable locals as arguments:
`current` the findings, `loopCount` = `loop_count`, `fixedTotal` =
`issues_fixed_total`, `prevIds` = `previous_finding_ids`, plus the three
call counters of the instrumentation.  `fuel` bounds the number of
iterations the embedding can unfold; the source loop is unbounded. -/
def runFixLoopAux (phase : String) (fix : List Finding → FixOutcome)
    (validate : List Finding → Nat → ValidationResult)
    (debug : String → String → DebugResult) :
    Nat → List Finding → Nat → Int → List (Finset String) → Nat → Nat → Nat → LoopRun
  | 0, current, _, _, _, fc, vc, dc =>
    if current = [] then
      { exit := LoopExit.done FixLoopResult.FIXED []
        stats := none, fixCalls := fc, validateCalls := vc, debugCalls := dc }
    else
      { exit := LoopExit.fuelOut
        stats := none, fixCalls := fc, validateCalls := vc, debugCalls := dc }
  | fuel + 1, current, loopCount, fixedTotal, prevIds, fc, vc, dc =>
    if current = [] then
      { exit := LoopExit.done FixLoopResult.FIXED []
        stats := none, fixCalls := fc, validateCalls := vc, debugCalls := dc }
    else
      let lc := loopCount + 1
      let curIds := idSet current
      if MAX_IDENTICAL_LOOPS ≤ countIdentical prevIds curIds then
        let st : FixLoopStats :=
          { phase := phase
            loops_run := lc
            issues_fixed := fixedTotal
            issues_remaining := current.length
            max_loops_reached := true }
        { exit := LoopExit.done FixLoopResult.MAX_LOOPS_REACHED current
          stats := some st, fixCalls := fc, validateCalls := vc, debugCalls := dc }
      else
        let prevIds1 := prevIds ++ [curIds]
        match fix current with
        | FixOutcome.raised msg =>
          { exit := LoopExit.raised msg
            stats := none, fixCalls := fc + 1, validateCalls := vc, debugCalls := dc }
        | FixOutcome.result fixOk err =>
          if fixOk = false then
            let d := debug phase err
            if d.fix_required = true ∧ d.findings ≠ [] then
              runFixLoopAux phase fix validate debug fuel d.findings lc fixedTotal prevIds1
                (fc + 1) vc (dc + 1)
            else
              { exit := LoopExit.done FixLoopResult.FAILED current
                stats := none, fixCalls := fc + 1, validateCalls := vc, debugCalls := dc + 1 }
          else
            let v := validate current lc
            if v.fix_required = false then
              let st : FixLoopStats :=
                { phase := phase
                  loops_run := lc
                  issues_fixed := fixedTotal + current.length
                  issues_remaining := 0
                  max_loops_reached := false }
              { exit := LoopExit.done FixLoopResult.FIXED []
                stats := some st, fixCalls := fc + 1, validateCalls := vc + 1, debugCalls := dc }
            else
              runFixLoopAux phase fix validate debug fuel v.findings lc
                (fixedTotal + ((current.length : Int) - (v.findings.length : Int))) prevIds1
                (fc + 1) (vc + 1) dc

/-- `SDLCOrchestrator._run_fix_loop` on `initial_findings`, starting from the
source's initial local state. -/
def runFixLoop (phase : String) (fix : List Finding → FixOutcome)
    (validate : List Finding → Nat → ValidationResult)
    (debug : String → String → DebugResult) (fuel : Nat) (initial : List Finding) : LoopRun :=
  runFixLoopAux phase fix validate debug fuel initial 0 0 [] 0 0 0

example :
    (runFixLoop "p" (fun _ => FixOutcome.result true "")
      (fun _ _ => { fix_required := false, findings := [] })
      (fun _ _ => { fix_required := false, findings := [] }) 5
      [⟨"A", "major", "l", "p", "", "", "builder"⟩]).exit
      = LoopExit.done FixLoopResult.FIXED [] := by decide

example :
    (runFixLoop "p" (fun _ => FixOutcome.result true "")
      (fun fs _ => { fix_required := true, findings := fs })
      (fun _ _ => { fix_required := false, findings := [] }) 9
      [⟨"A", "major", "l", "p", "", "", "builder"⟩]).exit
      = LoopExit.done FixLoopResult.MAX_LOOPS_REACHED [⟨"A", "major", "l", "p", "", "", "builder"⟩] := by decide

example :
    (runFixLoop "p" (fun _ => FixOutcome.result true "")
      (fun fs _ => { fix_required := true, findings := fs })
      (fun _ _ => { fix_required := false, findings := [] }) 9
      [⟨"A", "major", "l", "p", "", "", "builder"⟩]).fixCalls = 3 := by decide

theorem idSet_nil : idSet [] = ∅ := rfl

theorem idSet_eq_empty (fs : List Finding) : idSet fs = ∅ ↔ fs = [] := by
  constructor
  · intro h
    cases fs with
    | nil => rfl
    | cons f rest =>
      exfalso
      have : f.id ∈ idSet (f :: rest) := by
        simp [idSet]
      rw [h] at this
      exact absurd this (Finset.not_mem_empty _)
  · intro h
    rw [h]
    rfl

theorem countIdentical_nil (cur : Finset String) : countIdentical [] cur = 0 := rfl

theorem countIdentical_small (l : List (Finset String)) (cur : Finset String)
    (h : l.length ≤ 3) :
    countIdentical l cur = l.countP (fun s => decide (s = cur)) := by
  unfold countIdentical lastThree MAX_IDENTICAL_LOOPS
  rw [Nat.sub_eq_zero_of_le h, List.drop_zero]

theorem runFixLoopAux_deadlock (phase : String) (fix : List Finding → FixOutcome)
    (validate : List Finding → Nat → ValidationResult) (debug : String → String → DebugResult)
    (fuel : Nat) (current : List Finding) (loopCount : Nat) (fixedTotal : Int)
    (prevIds : List (Finset String)) (fc vc dc : Nat)
    (hne : current ≠ [])
    (hd : MAX_IDENTICAL_LOOPS ≤ countIdentical prevIds (idSet current)) :
    runFixLoopAux phase fix validate debug (fuel + 1) current loopCount fixedTotal prevIds fc vc dc
      = { exit := LoopExit.done FixLoopResult.MAX_LOOPS_REACHED current
          stats := some (FixLoopStats.mk phase (loopCount + 1) fixedTotal current.length true)
          fixCalls := fc, validateCalls := vc, debugCalls := dc } := by
  conv_lhs => rw [runFixLoopAux]
  rw [if_neg hne, if_pos hd]

theorem runFixLoopAux_step (phase : String) (fix : List Finding → FixOutcome)
    (validate : List Finding → Nat → ValidationResult) (debug : String → String → DebugResult)
    (fuel : Nat) (current : List Finding) (loopCount : Nat) (fixedTotal : Int)
    (prevIds : List (Finset String)) (fc vc dc : Nat)
    (hne : current ≠ [])
    (hnd : countIdentical prevIds (idSet current) < MAX_IDENTICAL_LOOPS)
    (e : String) (hfix : fix current = FixOutcome.result true e)
    (hfr : (validate current (loopCount + 1)).fix_required = true) :
    runFixLoopAux phase fix validate debug (fuel + 1) current loopCount fixedTotal prevIds fc vc dc
      = runFixLoopAux phase fix validate debug fuel (validate current (loopCount + 1)).findings
          (loopCount + 1)
          (fixedTotal + ((current.length : Int) - ((validate current (loopCount + 1)).findings.length : Int)))
          (prevIds ++ [idSet current]) (fc + 1) (vc + 1) dc := by
  conv_lhs => rw [runFixLoopAux]
  rw [if_neg hne, if_neg (Nat.not_le.2 hnd)]
  simp only [hfix, hfr]
  simp

example (S : Finset String) : countIdentical [S] S = 1 := by
  rw [countIdentical_small _ _ (by simp)]
  simp [List.countP_cons]

/-- C1 (amended): if fix always succeeds and `validate` always returns a
findings list whose id-set equals the (nonempty) input's, the loop runs
exactly 3 fix/validate cycles, never a 4th, and returns
`MAX_LOOPS_REACHED` with remaining findings that are the last validate
result — their id-set equals the input's id-set, but they need not be the
input list itself. -/
theorem fix_loop_deadlock (phase : String) (fix : List Finding → FixOutcome)
    (validate : List Finding → Nat → ValidationResult) (debug : String → String → DebugResult)
    (F0 : List Finding) (fuel : Nat)
    (hne : F0 ≠ []) (hfuel : 4 ≤ fuel)
    (hfix : ∀ fs, ∃ e, fix fs = FixOutcome.result true e)
    (hval : ∀ fs n, (validate fs n).fix_required = true
      ∧ idSet (validate fs n).findings = idSet F0) :
    ∃ rem,
      (runFixLoop phase fix validate debug fuel F0).exit
        = LoopExit.done FixLoopResult.MAX_LOOPS_REACHED rem ∧
      idSet rem = idSet F0 ∧
      (runFixLoop phase fix validate debug fuel F0).fixCalls = 3 ∧
      (runFixLoop phase fix validate debug fuel F0).validateCalls = 3 := by
  have hfe : fuel = ((fuel - 4 + 1) + 1 + 1) + 1 := by omega
  set k := fuel - 4 with hkdef
  have hSne : idSet F0 ≠ ∅ := fun hc => hne ((idSet_eq_empty F0).1 hc)
  set v1 := (validate F0 1).findings with hv1def
  have hv1S : idSet v1 = idSet F0 := (hval F0 1).2
  have hv1ne : v1 ≠ [] := fun hc => hSne (by rw [← hv1S, hc, idSet_nil])
  set v2 := (validate v1 2).findings with hv2def
  have hv2S : idSet v2 = idSet F0 := (hval v1 2).2
  have hv2ne : v2 ≠ [] := fun hc => hSne (by rw [← hv2S, hc, idSet_nil])
  set v3 := (validate v2 3).findings with hv3def
  have hv3S : idSet v3 = idSet F0 := (hval v2 3).2
  have hv3ne : v3 ≠ [] := fun hc => hSne (by rw [← hv3S, hc, idSet_nil])
  obtain ⟨e1, he1⟩ := hfix F0
  obtain ⟨e2, he2⟩ := hfix v1
  obtain ⟨e3, he3⟩ := hfix v2
  have hc0 : countIdentical [] (idSet F0) < MAX_IDENTICAL_LOOPS := by
    rw [countIdentical_nil]
    decide
  have hc1 : countIdentical [idSet F0] (idSet v1) < MAX_IDENTICAL_LOOPS := by
    rw [hv1S, countIdentical_small _ _ (by simp)]
    simp [List.countP_cons, MAX_IDENTICAL_LOOPS]
  have hc2 : countIdentical [idSet F0, idSet F0] (idSet v2) < MAX_IDENTICAL_LOOPS := by
    rw [hv2S, countIdentical_small _ _ (by simp)]
    simp [List.countP_cons, MAX_IDENTICAL_LOOPS]
  have hc3 : MAX_IDENTICAL_LOOPS ≤ countIdentical [idSet F0, idSet F0, idSet F0] (idSet v3) := by
    rw [hv3S, countIdentical_small _ _ (by simp)]
    simp [List.countP_cons, MAX_IDENTICAL_LOOPS]
  have hrun : runFixLoop phase fix validate debug fuel F0
      = { exit := LoopExit.done FixLoopResult.MAX_LOOPS_REACHED v3
          stats := some (FixLoopStats.mk phase 4
            (0 + ((F0.length : Int) - (v1.length : Int)) + ((v1.length : Int) - (v2.length : Int))
              + ((v2.length : Int) - (v3.length : Int))) v3.length true)
          fixCalls := 3, validateCalls := 3, debugCalls := 0 } := by
    unfold runFixLoop
    rw [hfe]
    rw [runFixLoopAux_step phase fix validate debug ((k + 1) + 1 + 1) F0 0 0 [] 0 0 0
      hne hc0 e1 he1 (hval F0 1).1]
    show runFixLoopAux phase fix validate debug ((k + 1) + 1 + 1) v1 1
      (0 + ((F0.length : Int) - (v1.length : Int))) [idSet F0] 1 1 0 = _
    rw [runFixLoopAux_step phase fix validate debug ((k + 1) + 1) v1 1
      (0 + ((F0.length : Int) - (v1.length : Int))) [idSet F0] 1 1 0
      hv1ne hc1 e2 he2 (hval v1 2).1]
    rw [hv1S]
    show runFixLoopAux phase fix validate debug ((k + 1) + 1) v2 2
      (0 + ((F0.length : Int) - (v1.length : Int)) + ((v1.length : Int) - (v2.length : Int)))
      [idSet F0, idSet F0] 2 2 0 = _
    rw [runFixLoopAux_step phase fix validate debug (k + 1) v2 2
      (0 + ((F0.length : Int) - (v1.length : Int)) + ((v1.length : Int) - (v2.length : Int)))
      [idSet F0, idSet F0] 2 2 0 hv2ne hc2 e3 he3 (hval v2 3).1]
    rw [hv2S]
    show runFixLoopAux phase fix validate debug (k + 1) v3 3
      (0 + ((F0.length : Int) - (v1.length : Int)) + ((v1.length : Int) - (v2.length : Int))
        + ((v2.length : Int) - (v3.length : Int)))
      [idSet F0, idSet F0, idSet F0] 3 3 0 = _
    rw [runFixLoopAux_deadlock phase fix validate debug k v3 3
      (0 + ((F0.length : Int) - (v1.length : Int)) + ((v1.length : Int) - (v2.length : Int))
        + ((v2.length : Int) - (v3.length : Int)))
      [idSet F0, idSet F0, idSet F0] 3 3 0 hv3ne hc3]
  rw [hrun]
  exact ⟨v3, rfl, hv3S, rfl, rfl⟩

/-- C1 (witness) input finding. -/
def deadInput : Finding := ⟨"A", "major", "loc", "p", "", "", "builder"⟩

/-- C1 (counterexample) finding: same id as `deadInput`, different problem
text, so the id-set signature is unchanged but the list differs. -/
def deadMutated : Finding := ⟨"A", "major", "loc", "q", "", "", "builder"⟩

/-- C1 (witness): the amended deadlock theorem applied to a concrete run
whose validate always returns the input findings unchanged. -/
theorem fix_loop_deadlock_witness :
    ([deadInput] ≠ ([] : List Finding)) ∧ 4 ≤ 9 ∧
    (∃ rem,
      (runFixLoop "code_review" (fun _ => FixOutcome.result true "")
        (fun _ _ => { fix_required := true, findings := [deadInput] })
        (fun _ _ => { fix_required := false, findings := [] }) 9 [deadInput]).exit
        = LoopExit.done FixLoopResult.MAX_LOOPS_REACHED rem ∧
      idSet rem = idSet [deadInput] ∧
      (runFixLoop "code_review" (fun _ => FixOutcome.result true "")
        (fun _ _ => { fix_required := true, findings := [deadInput] })
        (fun _ _ => { fix_required := false, findings := [] }) 9 [deadInput]).fixCalls = 3 ∧
      (runFixLoop "code_review" (fun _ => FixOutcome.result true "")
        (fun _ _ => { fix_required := true, findings := [deadInput] })
        (fun _ _ => { fix_required := false, findings := [] }) 9 [deadInput]).validateCalls = 3) :=
  ⟨by decide, by decide,
    fix_loop_deadlock "code_review" (fun _ => FixOutcome.result true "")
      (fun _ _ => { fix_required := true, findings := [deadInput] })
      (fun _ _ => { fix_required := false, findings := [] }) [deadInput] 9
      (by decide) (by decide) (fun fs => ⟨"", rfl⟩) (fun fs n => ⟨rfl, rfl⟩)⟩

/-- C1 (counterexample): a run in which every validate call returns a list
with the very same id-set as the input (as the claim assumes) but with a
mutated finding; the loop still deadlocks after 3 cycles, but the remaining
findings are not equal to the input findings. -/
theorem fix_loop_deadlock_counterexample :
    idSet [deadMutated] = idSet [deadInput] ∧
    (runFixLoop "code_review" (fun _ => FixOutcome.result true "")
      (fun _ _ => { fix_required := true, findings := [deadMutated] })
      (fun _ _ => { fix_required := false, findings := [] }) 9 [deadInput]).exit
      = LoopExit.done FixLoopResult.MAX_LOOPS_REACHED [deadMutated] ∧
    [deadMutated] ≠ [deadInput] := by
  refine ⟨by decide, by decide, by decide⟩

/-- C6 (amended): inside one loop iteration, when `fix_func` RETURNS a
failure result the Debugger is consulted with the phase and the failure
payload; `fix_required=true` with nonempty findings replaces the findings
and retries from the deadlock check, anything else returns
`(FAILED, current)`.  (A RAISING `fix_func` instead propagates — see the
counterexample.) -/
theorem fix_loop_fix_failure (phase : String) (fix : List Finding → FixOutcome)
    (validate : List Finding → Nat → ValidationResult) (debug : String → String → DebugResult)
    (fuel : Nat) (current : List Finding) (loopCount : Nat) (fixedTotal : Int)
    (prevIds : List (Finset String)) (fc vc dc : Nat)
    (hne : current ≠ [])
    (hnd : countIdentical prevIds (idSet current) < MAX_IDENTICAL_LOOPS)
    (err : String) (hfail : fix current = FixOutcome.result false err) :
    (((debug phase err).fix_required = true ∧ (debug phase err).findings ≠ []) →
      runFixLoopAux phase fix validate debug (fuel + 1) current loopCount fixedTotal prevIds fc vc dc
        = runFixLoopAux phase fix validate debug fuel (debug phase err).findings (loopCount + 1)
            fixedTotal (prevIds ++ [idSet current]) (fc + 1) vc (dc + 1)) ∧
    (¬((debug phase err).fix_required = true ∧ (debug phase err).findings ≠ []) →
      runFixLoopAux phase fix validate debug (fuel + 1) current loopCount fixedTotal prevIds fc vc dc
        = { exit := LoopExit.done FixLoopResult.FAILED current
            stats := none, fixCalls := fc + 1, validateCalls := vc, debugCalls := dc + 1 }) := by
  constructor
  · intro h
    conv_lhs => rw [runFixLoopAux]
    rw [if_neg hne, if_neg (Nat.not_le.2 hnd)]
    simp only [hfail]
    rw [if_pos trivial, if_pos h]
  · intro h
    conv_lhs => rw [runFixLoopAux]
    rw [if_neg hne, if_neg (Nat.not_le.2 hnd)]
    simp only [hfail]
    rw [if_pos trivial, if_neg h]

/-- C6 (counterexample) finding. -/
def raiseFind : Finding := ⟨"R1", "major", "loc", "p", "", "", "builder"⟩

/-- C6: as stated the claim is false — a fix operation that RAISES is not
routed to the Debugger: the exception propagates out of the loop and the
Debugger (here one that would have offered a re-diagnosis) is never
invoked. -/
theorem fix_loop_raise_counterexample :
    (runFixLoop "code_review" (fun _ => FixOutcome.raised "boom")
      (fun _ _ => { fix_required := true, findings := [raiseFind] })
      (fun _ _ => { fix_required := true, findings := [raiseFind] }) 10 [raiseFind]).exit
      = LoopExit.raised "boom" ∧
    (runFixLoop "code_review" (fun _ => FixOutcome.raised "boom")
      (fun _ _ => { fix_required := true, findings := [raiseFind] })
      (fun _ _ => { fix_required := true, findings := [raiseFind] }) 10 [raiseFind]).debugCalls
      = 0 := by
  refine ⟨by decide, by decide⟩

/-- C6 (witness): the amended theorem applied to a concrete failing-fix run
whose Debugger answers with a re-diagnosis. -/
theorem fix_loop_fix_failure_witness :
    ([raiseFind] ≠ ([] : List Finding)) ∧
    countIdentical [] (idSet [raiseFind]) < MAX_IDENTICAL_LOOPS ∧
    ((fun (_ : List Finding) => FixOutcome.result false "apply failed") [raiseFind]
      = FixOutcome.result false "apply failed") ∧
    ((((fun (_ : String) (_ : String) => DebugResult.mk true [raiseFind]) "qa" "apply failed").fix_required = true ∧
        (((fun (_ : String) (_ : String) => DebugResult.mk true [raiseFind]) "qa" "apply failed")).findings ≠ []) →
      runFixLoopAux "qa" (fun _ => FixOutcome.result false "apply failed")
          (fun _ _ => ValidationResult.mk false []) (fun _ _ => DebugResult.mk true [raiseFind])
          (5 + 1) [raiseFind] 0 0 [] 0 0 0
        = runFixLoopAux "qa" (fun _ => FixOutcome.result false "apply failed")
            (fun _ _ => ValidationResult.mk false []) (fun _ _ => DebugResult.mk true [raiseFind])
            5 ((fun (_ : String) (_ : String) => DebugResult.mk true [raiseFind]) "qa" "apply failed").findings
            (0 + 1) 0 ([] ++ [idSet [raiseFind]]) (0 + 1) 0 (0 + 1)) :=
  ⟨by decide, by decide, rfl,
    (fix_loop_fix_failure "qa" (fun _ => FixOutcome.result false "apply failed")
      (fun _ _ => ValidationResult.mk false []) (fun _ _ => DebugResult.mk true [raiseFind])
      5 [raiseFind] 0 0 [] 0 0 0 (by decide) (by decide) "apply failed" rfl).1⟩

/-- The finding lists seen when iterating `validate` from a start list and
loop counter: index 0 is the start, index i+1 applies `validate` once more
with the next loop count. -/
def seqFrom (validate : List Finding → Nat → ValidationResult) :
    List Finding → Nat → Nat → List Finding
  | fs, _, 0 => fs
  | fs, l, i + 1 => seqFrom validate ((validate fs (l + 1)).findings) (l + 1) i

theorem idSet_nil_ssubset (fs : List Finding) (h : fs ≠ []) : idSet [] ⊂ idSet fs := by
  rw [idSet_nil, Finset.empty_ssubset, Finset.nonempty_iff_ne_empty]
  exact fun hc => h ((idSet_eq_empty fs).1 hc)

theorem fixLoopConvAux (phase : String) (fix : List Finding → FixOutcome)
    (validate : List Finding → Nat → ValidationResult) (debug : String → String → DebugResult)
    (hfix : ∀ fs, ∃ e, fix fs = FixOutcome.result true e)
    (hval : ∀ fs n, fs ≠ [] → idSet (validate fs n).findings ⊂ idSet fs
      ∧ (validate fs n).fix_required = decide ((validate fs n).findings ≠ [])) :
    ∀ n : Nat, ∀ current : List Finding, current ≠ [] → (idSet current).card ≤ n →
    ∀ fuel loopCount : Nat, ∀ fixedTotal : Int, ∀ prevIds : List (Finset String),
    ∀ fc vc dc : Nat, n ≤ fuel →
    (∀ s ∈ prevIds, (idSet current).card < s.card) →
    ∃ k,
      (runFixLoopAux phase fix validate debug fuel current loopCount fixedTotal prevIds fc vc dc).exit
        = LoopExit.done FixLoopResult.FIXED [] ∧
      (runFixLoopAux phase fix validate debug fuel current loopCount fixedTotal prevIds fc vc dc).fixCalls
        = fc + k ∧
      (runFixLoopAux phase fix validate debug fuel current loopCount fixedTotal prevIds fc vc dc).validateCalls
        = vc + k ∧
      seqFrom validate current loopCount k = [] ∧
      ∀ i < k, seqFrom validate current loopCount i ≠ [] := by
  intro n
  induction n with
  | zero =>
    intro current hne hcard
    exfalso
    have : idSet current = ∅ := Finset.card_eq_zero.1 (Nat.le_zero.1 hcard)
    exact hne ((idSet_eq_empty current).1 this)
  | succ m ih =>
    intro current hne hcard fuel loopCount fixedTotal prevIds fc vc dc hfuel hprev
    cases fuel with
    | zero => omega
    | succ fl =>
      have hdc : countIdentical prevIds (idSet current) < MAX_IDENTICAL_LOOPS := by
        have h0 : countIdentical prevIds (idSet current) = 0 := by
          rw [countIdentical, List.countP_eq_zero]
          intro s hs
          have hlt := hprev s (List.drop_subset _ _ hs)
          simp only [decide_eq_true_eq]
          intro hc
          rw [hc] at hlt
          exact Nat.lt_irrefl _ hlt
        rw [h0]
        decide
      obtain ⟨e, he⟩ := hfix current
      obtain ⟨hsub, hfr⟩ := hval current (loopCount + 1) hne
      by_cases hvne : (validate current (loopCount + 1)).findings = []
      · have hfrv : (validate current (loopCount + 1)).fix_required = false := by
          rw [hfr, hvne]
          simp
        have hrun : runFixLoopAux phase fix validate debug (fl + 1) current loopCount fixedTotal
            prevIds fc vc dc
            = { exit := LoopExit.done FixLoopResult.FIXED []
                stats := some (FixLoopStats.mk phase (loopCount + 1)
                  (fixedTotal + current.length) 0 false)
                fixCalls := fc + 1, validateCalls := vc + 1, debugCalls := dc } := by
          conv_lhs => rw [runFixLoopAux]
          rw [if_neg hne, if_neg (Nat.not_le.2 hdc)]
          simp only [he, hfrv]
          simp
        refine ⟨1, ?_, ?_, ?_, ?_, ?_⟩
        · rw [hrun]
        · rw [hrun]
        · rw [hrun]
        · show seqFrom validate ((validate current (loopCount + 1)).findings) (loopCount + 1) 0 = []
          rw [seqFrom, hvne]
        · intro i hi
          interval_cases i
          exact hne
      · have hfrv : (validate current (loopCount + 1)).fix_required = true := by
          rw [hfr]
          simp [hvne]
        have hstep := runFixLoopAux_step phase fix validate debug fl current loopCount fixedTotal
          prevIds fc vc dc hne hdc e he hfrv
        have hcard2 : (idSet (validate current (loopCount + 1)).findings).card ≤ m := by
          have := Finset.card_lt_card hsub
          omega
        have hprev2 : ∀ s ∈ prevIds ++ [idSet current],
            (idSet (validate current (loopCount + 1)).findings).card < s.card := by
          intro s hs
          have hlt := Finset.card_lt_card hsub
          rcases List.mem_append.1 hs with hs1 | hs2
          · exact Nat.lt_trans hlt (hprev s hs1)
          · rw [List.mem_singleton.1 hs2]
            exact hlt
        obtain ⟨k, hk1, hk2, hk3, hk4, hk5⟩ := ih (validate current (loopCount + 1)).findings hvne
          hcard2 fl (loopCount + 1)
          (fixedTotal + ((current.length : Int) - ((validate current (loopCount + 1)).findings.length : Int)))
          (prevIds ++ [idSet current]) (fc + 1) (vc + 1) dc (by omega) hprev2
        refine ⟨k + 1, ?_, ?_, ?_, ?_, ?_⟩
        · rw [hstep]
          exact hk1
        · rw [hstep, hk2]
          omega
        · rw [hstep, hk3]
          omega
        · show seqFrom validate ((validate current (loopCount + 1)).findings) (loopCount + 1) k = []
          exact hk4
        · intro i hi
          cases i with
          | zero => exact hne
          | succ j =>
            show seqFrom validate ((validate current (loopCount + 1)).findings) (loopCount + 1) j ≠ []
            exact hk5 j (by omega)

/-- C7: if every fix succeeds and validate returns strictly shrinking
finding-id sets (reporting `fix_required` iff findings remain), the loop
ends `FIXED` with empty remaining findings after exactly as many
fix/validate iterations as there are non-empty finding lists in the
validate-iteration sequence (the input plus each intermediate set). -/
theorem fix_loop_convergence (phase : String) (fix : List Finding → FixOutcome)
    (validate : List Finding → Nat → ValidationResult) (debug : String → String → DebugResult)
    (F0 : List Finding) (fuel : Nat)
    (hne : F0 ≠ []) (hfuel : (idSet F0).card ≤ fuel)
    (hfix : ∀ fs, ∃ e, fix fs = FixOutcome.result true e)
    (hval : ∀ fs n, fs ≠ [] → idSet (validate fs n).findings ⊂ idSet fs
      ∧ (validate fs n).fix_required = decide ((validate fs n).findings ≠ [])) :
    ∃ k,
      (runFixLoop phase fix validate debug fuel F0).exit = LoopExit.done FixLoopResult.FIXED [] ∧
      (runFixLoop phase fix validate debug fuel F0).fixCalls = k ∧
      (runFixLoop phase fix validate debug fuel F0).validateCalls = k ∧
      seqFrom validate F0 0 k = [] ∧
      ∀ i < k, seqFrom validate F0 0 i ≠ [] := by
  obtain ⟨k, h1, h2, h3, h4, h5⟩ := fixLoopConvAux phase fix validate debug hfix hval
    (idSet F0).card F0 hne (le_refl _) fuel 0 0 [] 0 0 0 hfuel (by simp)
  refine ⟨k, h1, ?_, ?_, h4, h5⟩
  · have h2b : (runFixLoop phase fix validate debug fuel F0).fixCalls = 0 + k := h2
    omega
  · have h3b : (runFixLoop phase fix validate debug fuel F0).validateCalls = 0 + k := h3
    omega

/-- C7 (witness) input finding. -/
def convFind : Finding := ⟨"V1", "minor", "loc", "p", "", "", "builder"⟩

/-- C7 (witness): the convergence theorem applied to a concrete run whose
validate immediately reports everything fixed. -/
theorem fix_loop_convergence_witness :
    ([convFind] ≠ ([] : List Finding)) ∧ (idSet [convFind]).card ≤ 5 ∧
    (∃ k,
      (runFixLoop "testing" (fun _ => FixOutcome.result true "")
        (fun _ _ => ValidationResult.mk false [])
        (fun _ _ => DebugResult.mk false []) 5 [convFind]).exit
        = LoopExit.done FixLoopResult.FIXED [] ∧
      (runFixLoop "testing" (fun _ => FixOutcome.result true "")
        (fun _ _ => ValidationResult.mk false [])
        (fun _ _ => DebugResult.mk false []) 5 [convFind]).fixCalls = k ∧
      (runFixLoop "testing" (fun _ => FixOutcome.result true "")
        (fun _ _ => ValidationResult.mk false [])
        (fun _ _ => DebugResult.mk false []) 5 [convFind]).validateCalls = k ∧
      seqFrom (fun _ _ => ValidationResult.mk false []) [convFind] 0 k = [] ∧
      ∀ i < k, seqFrom (fun _ _ => ValidationResult.mk false []) [convFind] 0 i ≠ []) :=
  ⟨by decide, by decide,
    fix_loop_convergence "testing" (fun _ => FixOutcome.result true "")
      (fun _ _ => ValidationResult.mk false []) (fun _ _ => DebugResult.mk false [])
      [convFind] 5 (by decide) (by decide) (fun fs => ⟨"", rfl⟩)
      (fun fs n hfs => ⟨idSet_nil_ssubset fs hfs, rfl⟩)⟩

/-- `FeatureOrchestrator._run_fix_loop` (the four per-phase variants are
textually identical up to the collaborator invoked): mutable locals as
arguments, returning `none` on fuel exhaustion (an embedding artefact) and
otherwise `some (remaining, phase_result.fix_loops, phase_result.issues_fixed)`.
The builder's fix result is awaited but never inspected and there is no
debugger step in this loop. -/
def featureFixLoopAux (validate : List Finding → Nat → ValidationResult) (issuesFound : Int) :
    Nat → List Finding → Nat → Nat → List (Finset String) → Int →
      Option (List Finding × Nat × Int)
  | 0, current, _, fixLoops, _, fixed =>
    if current = [] then some ([], fixLoops, fixed) else none
  | fuel + 1, current, loopCount, fixLoops, prevIds, fixed =>
    if current = [] then some ([], fixLoops, fixed)
    else
      let lc := loopCount + 1
      let curIds := idSet current
      if MAX_IDENTICAL_LOOPS ≤ countIdentical prevIds curIds then
        some (current, fixLoops, fixed)
      else
        let prevIds1 := prevIds ++ [curIds]
        let v := validate current lc
        if v.fix_required = false then some ([], lc, issuesFound)
        else
          featureFixLoopAux validate issuesFound fuel v.findings lc lc prevIds1
            (fixed + ((current.length : Int) - (v.findings.length : Int)))

/-- `FeatureOrchestrator._run_fix_loop` from the source's initial local
state (`issuesFound` is the `phase_result.issues_found` set before the
loop). -/
def featureFixLoop (validate : List Finding → Nat → ValidationResult) (issuesFound : Int)
    (fuel : Nat) (findings : List Finding) : Option (List Finding × Nat × Int) :=
  featureFixLoopAux validate issuesFound fuel findings 0 0 [] 0

/-- C10 scenario findings: validate replaces the single finding A with the
three findings B, C, D on every call. -/
def negA : Finding := ⟨"A", "major", "a.py", "pa", "", "", "builder"⟩

/-- C10 scenario finding B. -/
def negB : Finding := ⟨"B", "major", "b.py", "pb", "", "", "builder"⟩

/-- C10 scenario finding C. -/
def negC : Finding := ⟨"C", "major", "c.py", "pc", "", "", "builder"⟩

/-- C10 scenario finding D. -/
def negD : Finding := ⟨"D", "major", "d.py", "pd", "", "", "builder"⟩

/-- C10 scenario validate behaviour. -/
def negValidate : List Finding → Nat → ValidationResult :=
  fun _ _ => ValidationResult.mk true [negB, negC, negD]

/-- C10 scenario debugger behaviour (never consulted: fix always succeeds). -/
def negDebug : String → String → DebugResult :=
  fun _ _ => DebugResult.mk false []

/-- C10: when validate reports more findings than the current set, the
per-round `issues_fixed` delta is negative and accumulated: one finding
grows to three, the loop later deadlocks, and the recorded
`FixLoopStats.issues_fixed` (SDLC orchestrator) and
`PhaseResult.issues_fixed` (feature orchestrator) end at -2 < 0. -/
theorem issues_fixed_negative :
    (runFixLoop "testing" (fun _ => FixOutcome.result true "") negValidate negDebug 10
        [negA]).stats
      = some (FixLoopStats.mk "testing" 5 (-2) 3 true) ∧
    featureFixLoop negValidate 1 10 [negA] = some ([negB, negC, negD], 4, -2) ∧
    (-2 : Int) < 0 := by
  refine ⟨by decide, by decide, by decide⟩

/-- `TaskStatus` from orchestrator.py. -/
inductive TaskStatus where
  | TODO
  | PLANNING
  | BUILDING
  | REVIEWING
  | UI_REVIEWING
  | TESTING
  | QA_CHECKING
  | SHIPPED
  | FAILED
  | PARTIAL
deriving Repr, DecidableEq

/-- Result shape of `PlannerAgent.plan` as `process_task` reads it. -/
structure PlanResult where
  success : Bool
  spec : String
  files_to_modify : List String
  files_to_create : List String
  error : String
deriving Repr, DecidableEq

/-- Result shape of `BuilderAgent.build` as `process_task` reads it. -/
structure BuildResult where
  success : Bool
  files_modified : List String
  files_created : List String
  error : String
deriving Repr, DecidableEq

/-- The behaviours of all external collaborators during one `process_task`
run: what `plan` produced (or raised), what `build` returns per spec text,
what the two parallel instances of each validation phase returned, each
phase's `validate_fix`, and the debugger. -/
structure Env where
  plan : Except String PlanResult
  build : String → Except String BuildResult
  reviewRuns : List AgentOutcome
  reviewValidate : List Finding → Nat → ValidationResult
  uiRuns : List AgentOutcome
  uiValidate : List Finding → Nat → ValidationResult
  testRuns : List AgentOutcome
  testValidate : List Finding → Nat → ValidationResult
  qaRuns : List AgentOutcome
  qaValidate : List Finding → Nat → ValidationResult
  debug : String → String → DebugResult

/-- The `Task` fields `process_task` mutates, plus the ordered trace of
statuses assigned to `task.status` (each assignment is followed by an
`_emit_status`). -/
structure TaskState where
  status : TaskStatus
  spec : String
  files_modified : List String
  files_created : List String
  fix_loop_stats : List FixLoopStats
  error : Option String
  trace : List TaskStatus
deriving Repr, DecidableEq

/-- A `task.status = s` assignment. -/
def setStatus (t : TaskState) (s : TaskStatus) : TaskState :=
  { t with status := s, trace := t.trace ++ [s] }

/-- A freshly created task (`create_task`). -/
def initialTask : TaskState :=
  { status := TaskStatus.TODO, spec := "", files_modified := [], files_created := []
    fix_loop_stats := [], error := none, trace := [TaskStatus.TODO] }

/-- Control-flow outcome of the `try:` body of `process_task` up to a given
point: continue, early `return task` (the PARTIAL path), a raised exception
carrying the task state at raise time, or fuel exhaustion inside an
embedded fix-loop (an embedding artefact). -/
inductive BodyRes where
  | ok (t : TaskState)
  | ret (t : TaskState)
  | exc (msg : String) (t : TaskState)
  | fuelOut
deriving Repr, DecidableEq

/-- Sequencing of `process_task` phases: exceptions, early returns and fuel
exhaustion short-circuit. -/
def BodyRes.andThen : BodyRes → (TaskState → BodyRes) → BodyRes
  | BodyRes.ok t, f => f t
  | BodyRes.ret t, _ => BodyRes.ret t
  | BodyRes.exc m t, _ => BodyRes.exc m t
  | BodyRes.fuelOut, _ => BodyRes.fuelOut

/-- `str(x)` of an optional error (Python prints `None`). -/
def optStr : Option String → String
  | none => "None"
  | some s => s

/-- One block of `_build_fix_spec` for a finding. -/
def buildFixSpecOne (f : Finding) : String :=
  "\n## Fix Required: " ++ f.id ++ "\n- Location: " ++ f.location ++ "\n- Problem: "
    ++ f.problem ++ "\n- Fix Instruction: " ++ f.fix_instruction ++ "\n- Fix Code: "
    ++ f.fix_code ++ "\n"

/-- `SDLCOrchestrator._build_fix_spec`. -/
def buildFixSpec (originalSpec : String) (findings : List Finding) : String :=
  "\n# FIX REQUIRED\n\nApply the following fixes to the implementation:\n\n"
    ++ String.join (findings.map buildFixSpecOne)
    ++ "\n\n## Original Context\n" ++ originalSpec.take 1000
    ++ "...\n\n## Instructions\n1. Apply each fix exactly as specified\n2. Do not make other changes\n3. Verify the fix resolves the issue\n"

/-- The `fix_func` every phase passes to `_run_fix_loop`: call the builder
on a findings-derived fix spec; a raising build propagates, otherwise the
build result's success/error feed the loop. -/
def envFix (env : Env) (spec : String) (fs : List Finding) : FixOutcome :=
  match env.build (buildFixSpec spec fs) with
  | Except.error m => FixOutcome.raised m
  | Except.ok b => FixOutcome.result b.success b.error

/-- The code-review fix-loop run of `process_task`. -/
def reviewLoopRun (env : Env) (fuel : Nat) (spec : String) : LoopRun :=
  runFixLoop "code_review" (envFix env spec) env.reviewValidate env.debug fuel
    (mergeResults env.reviewRuns).findings

/-- The ui-review fix-loop run of `process_task`. -/
def uiLoopRun (env : Env) (fuel : Nat) (spec : String) : LoopRun :=
  runFixLoop "ui_review" (envFix env spec) env.uiValidate env.debug fuel
    (mergeResults env.uiRuns).findings

/-- The testing fix-loop run of `process_task`. -/
def testLoopRun (env : Env) (fuel : Nat) (spec : String) : LoopRun :=
  runFixLoop "testing" (envFix env spec) env.testValidate env.debug fuel
    (mergeResults env.testRuns).findings

/-- The qa fix-loop run of `process_task`. -/
def qaLoopRun (env : Env) (fuel : Nat) (spec : String) : LoopRun :=
  runFixLoop "qa" (envFix env spec) env.qaValidate env.debug fuel
    (mergeResults env.qaRuns).findings

/-- PHASE 1: PLANNING. -/
def stepPlanning (env : Env) (t : TaskState) : BodyRes :=
  let t := setStatus t TaskStatus.PLANNING
  match env.plan with
  | Except.error m => BodyRes.exc m t
  | Except.ok p =>
    if p.success = false then BodyRes.exc ("Planning failed: " ++ p.error) t
    else
      BodyRes.ok { t with
        spec := p.spec
        files_modified := p.files_to_modify
        files_created := p.files_to_create }

/-- PHASE 2: BUILDING. -/
def stepBuilding (env : Env) (t : TaskState) : BodyRes :=
  let t := setStatus t TaskStatus.BUILDING
  match env.build t.spec with
  | Except.error m => BodyRes.exc m t
  | Except.ok b =>
    if b.success = false then BodyRes.exc ("Building failed: " ++ b.error) t
    else
      BodyRes.ok { t with
        files_modified := b.files_modified
        files_created := b.files_created }

/-- PHASE 3: CODE REVIEW + FIX-LOOP: the only phase whose merged `success`
is checked and whose loop result `FAILED` raises. -/
def stepReview (env : Env) (fuel : Nat) (t : TaskState) : BodyRes :=
  let t := setStatus t TaskStatus.REVIEWING
  let rr := mergeResults env.reviewRuns
  if rr.success = false then BodyRes.exc ("Review failed: " ++ optStr rr.error) t
  else if rr.fix_required = true ∧ rr.findings ≠ [] then
    let run := reviewLoopRun env fuel t.spec
    let t := { t with fix_loop_stats := t.fix_loop_stats ++ run.stats.toList }
    match run.exit with
    | LoopExit.raised m => BodyRes.exc m t
    | LoopExit.fuelOut => BodyRes.fuelOut
    | LoopExit.done r _ =>
      if r = FixLoopResult.FAILED then BodyRes.exc "Code review fix-loop failed" t
      else BodyRes.ok t
  else BodyRes.ok t

/-- PHASE 4: UI REVIEW + FIX-LOOP, entered iff `task.files_created` is
nonempty; the loop result is discarded entirely. -/
def stepUi (env : Env) (fuel : Nat) (t : TaskState) : BodyRes :=
  if t.files_created ≠ [] then
    let t := setStatus t TaskStatus.UI_REVIEWING
    let ur := mergeResults env.uiRuns
    if ur.fix_required = true ∧ ur.findings ≠ [] then
      let run := uiLoopRun env fuel t.spec
      let t := { t with fix_loop_stats := t.fix_loop_stats ++ run.stats.toList }
      match run.exit with
      | LoopExit.raised m => BodyRes.exc m t
      | LoopExit.fuelOut => BodyRes.fuelOut
      | LoopExit.done _ _ => BodyRes.ok t
    else BodyRes.ok t
  else BodyRes.ok t

/-- PHASE 5: TESTING + FIX-LOOP; the loop result is discarded entirely. -/
def stepTesting (env : Env) (fuel : Nat) (t : TaskState) : BodyRes :=
  let t := setStatus t TaskStatus.TESTING
  let tr := mergeResults env.testRuns
  if tr.fix_required = true ∧ tr.findings ≠ [] then
    let run := testLoopRun env fuel t.spec
    let t := { t with fix_loop_stats := t.fix_loop_stats ++ run.stats.toList }
    match run.exit with
    | LoopExit.raised m => BodyRes.exc m t
    | LoopExit.fuelOut => BodyRes.fuelOut
    | LoopExit.done _ _ => BodyRes.ok t
  else BodyRes.ok t

/-- PHASE 6: QA CHECK + FIX-LOOP: nonempty remaining findings (whatever the
loop result) return PARTIAL with the remaining count in the error field. -/
def stepQa (env : Env) (fuel : Nat) (t : TaskState) : BodyRes :=
  let t := setStatus t TaskStatus.QA_CHECKING
  let qr := mergeResults env.qaRuns
  if qr.fix_required = true ∧ qr.findings ≠ [] then
    let run := qaLoopRun env fuel t.spec
    let t := { t with fix_loop_stats := t.fix_loop_stats ++ run.stats.toList }
    match run.exit with
    | LoopExit.raised m => BodyRes.exc m t
    | LoopExit.fuelOut => BodyRes.fuelOut
    | LoopExit.done _ remaining =>
      if remaining ≠ [] then
        let t := setStatus t TaskStatus.PARTIAL
        BodyRes.ret { t with
          error := some ("QA: " ++ toString remaining.length ++ " issues remaining after max loops") }
      else BodyRes.ok t
  else BodyRes.ok t

/-- SHIP. -/
def stepShip (t : TaskState) : BodyRes :=
  BodyRes.ok (setStatus t TaskStatus.SHIPPED)

/-- The `try:` body of `SDLCOrchestrator.process_task`. -/
def processTaskBody (env : Env) (fuel : Nat) : BodyRes :=
  ((((((stepPlanning env initialTask).andThen
    (stepBuilding env)).andThen
    (stepReview env fuel)).andThen
    (stepUi env fuel)).andThen
    (stepTesting env fuel)).andThen
    (stepQa env fuel)).andThen
    stepShip

/-- The `except Exception` handler of `process_task`: a raised exception
marks the task FAILED with the message; normal and early returns pass the
task through. -/
def finishTask : BodyRes → Option TaskState
  | BodyRes.ok t => some t
  | BodyRes.ret t => some t
  | BodyRes.exc m t => some { setStatus t TaskStatus.FAILED with error := some m }
  | BodyRes.fuelOut => none

/-- `SDLCOrchestrator.process_task`: the `try`/`except` wrapper; `none` only
when an embedded loop ran out of fuel. -/
def processTask (env : Env) (fuel : Nat) : Option TaskState :=
  finishTask (processTaskBody env fuel)

/-- The task state carried by a `BodyRes`, if any. -/
def BodyRes.stateOf : BodyRes → Option TaskState
  | BodyRes.ok t => some t
  | BodyRes.ret t => some t
  | BodyRes.exc _ t => some t
  | BodyRes.fuelOut => none

theorem setStatus_spec (t : TaskState) (s : TaskStatus) : (setStatus t s).spec = t.spec := rfl

theorem setStatus_files_created (t : TaskState) (s : TaskStatus) :
    (setStatus t s).files_created = t.files_created := rfl

theorem setStatus_trace (t : TaskState) (s : TaskStatus) :
    (setStatus t s).trace = t.trace ++ [s] := rfl

theorem mergeResults_fix_required_iff (rs : List AgentOutcome) :
    ((mergeResults rs).fix_required = true ∧ (mergeResults rs).findings ≠ [])
      ↔ (mergeResults rs).findings ≠ [] := by
  constructor
  · exact fun h => h.2
  · intro h
    refine ⟨?_, h⟩
    simp only [mergeResults, decide_eq_true_eq]
    simp only [mergeResults] at h
    exact List.length_pos.2 h
  
theorem stepTesting_state (env : Env) (fuel : Nat) (t t0 : TaskState)
    (h : (stepTesting env fuel t).stateOf = some t0) :
    t0.trace = t.trace ++ [TaskStatus.TESTING] := by
  simp only [stepTesting] at h
  split at h
  · split at h
    · simp [BodyRes.stateOf] at h
      rw [← h, setStatus_trace]
    · simp [BodyRes.stateOf] at h
    · simp [BodyRes.stateOf] at h
      rw [← h, setStatus_trace]
  · simp [BodyRes.stateOf] at h
    rw [← h, setStatus_trace]

theorem stepQa_state (env : Env) (fuel : Nat) (t t0 : TaskState)
    (h : (stepQa env fuel t).stateOf = some t0) :
    ∃ l, t0.trace = t.trace ++ l ∧ TaskStatus.UI_REVIEWING ∉ l := by
  simp only [stepQa] at h
  split at h
  · split at h
    · simp [BodyRes.stateOf] at h
      refine ⟨[TaskStatus.QA_CHECKING], ?_, by simp⟩
      rw [← h, setStatus_trace]
    · simp [BodyRes.stateOf] at h
    · split at h
      · simp [BodyRes.stateOf] at h
        refine ⟨[TaskStatus.QA_CHECKING, TaskStatus.PARTIAL], ?_, by simp⟩
        rw [← h]
        show ((setStatus (setStatus _ TaskStatus.QA_CHECKING) TaskStatus.PARTIAL)).trace = _
        rw [setStatus_trace, setStatus_trace]
        simp
      · simp [BodyRes.stateOf] at h
        refine ⟨[TaskStatus.QA_CHECKING], ?_, by simp⟩
        rw [← h, setStatus_trace]
  · simp [BodyRes.stateOf] at h
    refine ⟨[TaskStatus.QA_CHECKING], ?_, by simp⟩
    rw [← h, setStatus_trace]

theorem stepUi_skip (env : Env) (fuel : Nat) (t : TaskState) (h : t.files_created = []) :
    stepUi env fuel t = BodyRes.ok t := by
  simp [stepUi, h]

theorem stepUi_state (env : Env) (fuel : Nat) (t t0 : TaskState)
    (hfc : t.files_created ≠ [])
    (h : (stepUi env fuel t).stateOf = some t0) :
    t0.trace = t.trace ++ [TaskStatus.UI_REVIEWING] := by
  simp only [stepUi, if_pos hfc] at h
  split at h
  · split at h
    · simp [BodyRes.stateOf] at h
      rw [← h, setStatus_trace]
    · simp [BodyRes.stateOf] at h
    · simp [BodyRes.stateOf] at h
      rw [← h, setStatus_trace]
  · simp [BodyRes.stateOf] at h
    rw [← h, setStatus_trace]

theorem tail_trace (env : Env) (fuel : Nat) (T t : TaskState)
    (h : finishTask ((((BodyRes.ok T).andThen (stepTesting env fuel)).andThen
      (stepQa env fuel)).andThen stepShip) = some t) :
    ∃ l, t.trace = T.trace ++ l ∧ TaskStatus.UI_REVIEWING ∉ l := by
  rw [show (BodyRes.ok T).andThen (stepTesting env fuel) = stepTesting env fuel T from rfl] at h
  cases h5 : stepTesting env fuel T with
  | fuelOut =>
    rw [h5] at h
    simp [BodyRes.andThen, finishTask] at h
  | ret t5 =>
    rw [h5] at h
    simp only [BodyRes.andThen, finishTask, Option.some_inj] at h
    have h5t := stepTesting_state env fuel T t5 (by rw [h5]; rfl)
    exact ⟨[TaskStatus.TESTING], by rw [← h, h5t], by simp⟩
  | exc m5 t5 =>
    rw [h5] at h
    simp only [BodyRes.andThen, finishTask, Option.some_inj] at h
    have h5t := stepTesting_state env fuel T t5 (by rw [h5]; rfl)
    refine ⟨[TaskStatus.TESTING, TaskStatus.FAILED], ?_, by simp⟩
    rw [← h]
    show (setStatus t5 TaskStatus.FAILED).trace = _
    rw [setStatus_trace, h5t]
    simp
  | ok t5 =>
    rw [h5] at h
    have h5t := stepTesting_state env fuel T t5 (by rw [h5]; rfl)
    rw [show (BodyRes.ok t5).andThen (stepQa env fuel) = stepQa env fuel t5 from rfl] at h
    cases h6 : stepQa env fuel t5 with
    | fuelOut =>
      rw [h6] at h
      simp [BodyRes.andThen, finishTask] at h
    | ret t6 =>
      rw [h6] at h
      simp only [BodyRes.andThen, finishTask, Option.some_inj] at h
      obtain ⟨l6, h6t, h6ui⟩ := stepQa_state env fuel t5 t6 (by rw [h6]; rfl)
      refine ⟨[TaskStatus.TESTING] ++ l6, ?_, by simp [h6ui]⟩
      rw [← h, h6t, h5t]
      simp
    | exc m6 t6 =>
      rw [h6] at h
      simp only [BodyRes.andThen, finishTask, Option.some_inj] at h
      obtain ⟨l6, h6t, h6ui⟩ := stepQa_state env fuel t5 t6 (by rw [h6]; rfl)
      refine ⟨[TaskStatus.TESTING] ++ l6 ++ [TaskStatus.FAILED], ?_, by simp [h6ui]⟩
      rw [← h]
      show (setStatus t6 TaskStatus.FAILED).trace = _
      rw [setStatus_trace, h6t, h5t]
      simp
    | ok t6 =>
      rw [h6] at h
      obtain ⟨l6, h6t, h6ui⟩ := stepQa_state env fuel t5 t6 (by rw [h6]; rfl)
      simp only [BodyRes.andThen, stepShip, finishTask, Option.some_inj] at h
      refine ⟨[TaskStatus.TESTING] ++ l6 ++ [TaskStatus.SHIPPED], ?_, by simp [h6ui]⟩
      rw [← h]
      rw [setStatus_trace, h6t, h5t]
      simp

theorem stepPlanning_ok (env : Env) (t : TaskState) (p : PlanResult)
    (hp : env.plan = Except.ok p) (hps : p.success = true) :
    stepPlanning env t = BodyRes.ok { setStatus t TaskStatus.PLANNING with
      spec := p.spec
      files_modified := p.files_to_modify
      files_created := p.files_to_create } := by
  simp [stepPlanning, hp, hps]

theorem stepBuilding_ok (env : Env) (t : TaskState) (b : BuildResult)
    (hb : env.build t.spec = Except.ok b) (hbs : b.success = true) :
    stepBuilding env t = BodyRes.ok { setStatus t TaskStatus.BUILDING with
      files_modified := b.files_modified
      files_created := b.files_created } := by
  simp only [stepBuilding, setStatus_spec, hb, hbs]
  simp

theorem stepReview_ok (env : Env) (fuel : Nat) (t : TaskState)
    (hrs : (mergeResults env.reviewRuns).success = true)
    (h4 : (mergeResults env.reviewRuns).findings ≠ [] →
      ∃ r rem, (reviewLoopRun env fuel t.spec).exit = LoopExit.done r rem
        ∧ r ≠ FixLoopResult.FAILED) :
    ∃ sl, stepReview env fuel t = BodyRes.ok { setStatus t TaskStatus.REVIEWING with
      fix_loop_stats := t.fix_loop_stats ++ sl } := by
  by_cases hne : (mergeResults env.reviewRuns).findings = []
  · refine ⟨[], ?_⟩
    have hcond : ¬((mergeResults env.reviewRuns).fix_required = true
        ∧ (mergeResults env.reviewRuns).findings ≠ []) := by
      rw [mergeResults_fix_required_iff]
      simp [hne]
    simp [stepReview, hrs, hcond]
    rfl
  · obtain ⟨r, rem, hexit, hrF⟩ := h4 hne
    refine ⟨(reviewLoopRun env fuel t.spec).stats.toList, ?_⟩
    have hcond : (mergeResults env.reviewRuns).fix_required = true
        ∧ (mergeResults env.reviewRuns).findings ≠ [] :=
      (mergeResults_fix_required_iff _).2 hne
    simp only [stepReview, hrs, Bool.true_eq_false, if_false, if_pos hcond, setStatus_spec,
      hexit, if_neg hrF]
    simp
    rfl

/-- C2 (amended): in `process_task`, once planning, building and the review
phase complete, `UI_REVIEWING` is visited iff the build created at least one
file — the UI-file predicate is NOT consulted (it belongs to
`FeatureOrchestrator`); `UI_REVIEWING` is skipped iff `files_created` is
empty. -/
theorem ui_review_iff (env : Env) (fuel : Nat) (p : PlanResult) (b : BuildResult)
    (hp : env.plan = Except.ok p) (hps : p.success = true)
    (hb : env.build p.spec = Except.ok b) (hbs : b.success = true)
    (hrs : (mergeResults env.reviewRuns).success = true)
    (h4 : (mergeResults env.reviewRuns).findings ≠ [] →
      ∃ r rem, (reviewLoopRun env fuel p.spec).exit = LoopExit.done r rem
        ∧ r ≠ FixLoopResult.FAILED) :
    ∀ t, processTask env fuel = some t →
      (TaskStatus.UI_REVIEWING ∈ t.trace ↔ b.files_created ≠ []) := by
  intro t hpt
  have h1 := stepPlanning_ok env initialTask p hp hps
  set T1 : TaskState := { setStatus initialTask TaskStatus.PLANNING with
    spec := p.spec
    files_modified := p.files_to_modify
    files_created := p.files_to_create } with hT1
  have hT1spec : T1.spec = p.spec := rfl
  have h2 := stepBuilding_ok env T1 b (by rw [hT1spec]; exact hb) hbs
  set T2 : TaskState := { setStatus T1 TaskStatus.BUILDING with
    files_modified := b.files_modified
    files_created := b.files_created } with hT2
  have hT2spec : T2.spec = p.spec := rfl
  obtain ⟨sl, h3⟩ := stepReview_ok env fuel T2 hrs (by rw [hT2spec]; exact h4)
  set T3 : TaskState := { setStatus T2 TaskStatus.REVIEWING with
    fix_loop_stats := T2.fix_loop_stats ++ sl } with hT3
  have hT3files : T3.files_created = b.files_created := rfl
  have hT3trace : T3.trace = [TaskStatus.TODO, TaskStatus.PLANNING, TaskStatus.BUILDING,
      TaskStatus.REVIEWING] := rfl
  have hbody : processTaskBody env fuel
      = (((stepUi env fuel T3).andThen (stepTesting env fuel)).andThen
          (stepQa env fuel)).andThen stepShip := by
    unfold processTaskBody
    rw [h1]
    rw [show (BodyRes.ok T1).andThen (stepBuilding env) = stepBuilding env T1 from rfl, h2]
    rw [show (BodyRes.ok T2).andThen (stepReview env fuel) = stepReview env fuel T2 from rfl, h3]
    rfl
  unfold processTask at hpt
  rw [hbody] at hpt
  by_cases hfc : b.files_created = []
  · rw [stepUi_skip env fuel T3 (by rw [hT3files]; exact hfc)] at hpt
    obtain ⟨l, hl, hlui⟩ := tail_trace env fuel T3 t hpt
    constructor
    · intro hui
      rw [hl] at hui
      rcases List.mem_append.1 hui with h | h
      · rw [hT3trace] at h
        simp at h
      · exact absurd h hlui
    · intro hc
      exact absurd hfc hc
  · have hfc3 : T3.files_created ≠ [] := by
      rw [hT3files]
      exact hfc
    have hui : TaskStatus.UI_REVIEWING ∈ t.trace := by
      cases hu : stepUi env fuel T3 with
      | fuelOut =>
        rw [hu] at hpt
        simp [BodyRes.andThen, finishTask] at hpt
      | ret t4 =>
        rw [hu] at hpt
        simp only [BodyRes.andThen, finishTask, Option.some_inj] at hpt
        have h4t := stepUi_state env fuel T3 t4 hfc3 (by rw [hu]; rfl)
        rw [← hpt, h4t]
        simp
      | exc m t4 =>
        rw [hu] at hpt
        simp only [BodyRes.andThen, finishTask, Option.some_inj] at hpt
        have h4t := stepUi_state env fuel T3 t4 hfc3 (by rw [hu]; rfl)
        rw [← hpt]
        show TaskStatus.UI_REVIEWING ∈ (setStatus t4 TaskStatus.FAILED).trace
        rw [setStatus_trace, h4t]
        simp
      | ok t4 =>
        rw [hu] at hpt
        have h4t := stepUi_state env fuel T3 t4 hfc3 (by rw [hu]; rfl)
        obtain ⟨l, hl, _⟩ := tail_trace env fuel t4 t hpt
        rw [hl, h4t]
        simp
    exact ⟨fun _ => hfc, fun _ => hui⟩

/-- Whether the first char list starts the second. -/
def startsWithChars : List Char → List Char → Bool
  | [], _ => true
  | _ :: _, [] => false
  | a :: as, b :: bs => a == b && startsWithChars as bs

/-- Whether the first char list occurs contiguously in the second. -/
def containsChars (needle : List Char) : List Char → Bool
  | [] => startsWithChars needle []
  | b :: bs => startsWithChars needle (b :: bs) || containsChars needle bs

/-- Python `needle in hay` on strings. -/
def strContains (hay needle : String) : Bool :=
  containsChars needle.data hay.data

/-- Python `str.lower()` (ASCII range, which covers the indicators and the
paths in play). -/
def strLower (s : String) : String :=
  String.mk (s.data.map Char.toLower)

/-- `FeatureOrchestrator._is_ui_file`: case-insensitive check of the UI
indicators (extension or path fragment). -/
def isUiFile (path : String) : Bool :=
  let uiIndicators := [".tsx", ".jsx", "component", "page", "view", "/ui/", "/components/",
    "/pages/"]
  uiIndicators.any (fun ind => strContains (strLower path) ind)

example : isUiFile "src/Components/Button.TSX" = true := by decide

example : isUiFile "src/server/db.py" = false := by decide

/-- C2 (counterexample) environment: planning and building succeed, the
build creates only `main.py`, and every validation instance reports no
findings. -/
def mainOnlyEnv : Env :=
  { plan := Except.ok (PlanResult.mk true "the spec" [] [] "")
    build := fun _ => Except.ok (BuildResult.mk true [] ["main.py"] "")
    reviewRuns := [AgentOutcome.ok []]
    reviewValidate := fun _ _ => ValidationResult.mk false []
    uiRuns := [AgentOutcome.ok []]
    uiValidate := fun _ _ => ValidationResult.mk false []
    testRuns := [AgentOutcome.ok []]
    testValidate := fun _ _ => ValidationResult.mk false []
    qaRuns := [AgentOutcome.ok []]
    qaValidate := fun _ _ => ValidationResult.mk false []
    debug := fun _ _ => DebugResult.mk false [] }

/-- C2: as stated the claim is false — the build created only `main.py`,
which matches no UI-file indicator, yet `process_task` still visits
`UI_REVIEWING` (the gate is `if task.files_created:`, not the UI
predicate). -/
theorem ui_review_counterexample :
    (processTask mainOnlyEnv 5).map TaskState.files_created = some ["main.py"] ∧
    isUiFile "main.py" = false ∧
    (processTask mainOnlyEnv 5).map TaskState.trace
      = some [TaskStatus.TODO, TaskStatus.PLANNING, TaskStatus.BUILDING, TaskStatus.REVIEWING,
          TaskStatus.UI_REVIEWING, TaskStatus.TESTING, TaskStatus.QA_CHECKING,
          TaskStatus.SHIPPED] := by
  refine ⟨by decide, by decide, by decide⟩

/-- C2 (witness): the amended theorem applied to the concrete environment
whose build created one (non-UI) file. -/
theorem ui_review_iff_witness :
    mainOnlyEnv.plan = Except.ok (PlanResult.mk true "the spec" [] [] "") ∧
    (PlanResult.mk true "the spec" [] [] "").success = true ∧
    mainOnlyEnv.build "the spec" = Except.ok (BuildResult.mk true [] ["main.py"] "") ∧
    (BuildResult.mk true [] ["main.py"] "").success = true ∧
    (mergeResults mainOnlyEnv.reviewRuns).success = true ∧
    (∀ t, processTask mainOnlyEnv 5 = some t →
      (TaskStatus.UI_REVIEWING ∈ t.trace ↔ (BuildResult.mk true [] ["main.py"] "").files_created ≠ [])) :=
  ⟨rfl, rfl, rfl, rfl, by decide,
    ui_review_iff mainOnlyEnv 5 (PlanResult.mk true "the spec" [] [] "")
      (BuildResult.mk true [] ["main.py"] "") rfl rfl rfl rfl (by decide)
      (fun h => absurd (by decide) h)⟩

theorem stepUi_run (env : Env) (fuel : Nat) (t : TaskState)
    (hfc : t.files_created ≠ [])
    (hne : (mergeResults env.uiRuns).findings ≠ [])
    (r : FixLoopResult) (rem : List Finding)
    (hexit : (uiLoopRun env fuel t.spec).exit = LoopExit.done r rem) :
    stepUi env fuel t = BodyRes.ok { setStatus t TaskStatus.UI_REVIEWING with
      fix_loop_stats := t.fix_loop_stats ++ (uiLoopRun env fuel t.spec).stats.toList } := by
  have hcond := (mergeResults_fix_required_iff env.uiRuns).2 hne
  simp only [stepUi, if_pos hfc, if_pos hcond, setStatus_spec, hexit]
  rfl

theorem stepUi_nofind (env : Env) (fuel : Nat) (t : TaskState)
    (hfc : t.files_created ≠ [])
    (hne : (mergeResults env.uiRuns).findings = []) :
    stepUi env fuel t = BodyRes.ok (setStatus t TaskStatus.UI_REVIEWING) := by
  have hcond : ¬((mergeResults env.uiRuns).fix_required = true
      ∧ (mergeResults env.uiRuns).findings ≠ []) := by
    rw [mergeResults_fix_required_iff]
    simp [hne]
  simp [stepUi, if_pos hfc, hcond]

theorem stepTesting_run (env : Env) (fuel : Nat) (t : TaskState)
    (hne : (mergeResults env.testRuns).findings ≠ [])
    (r : FixLoopResult) (rem : List Finding)
    (hexit : (testLoopRun env fuel t.spec).exit = LoopExit.done r rem) :
    stepTesting env fuel t = BodyRes.ok { setStatus t TaskStatus.TESTING with
      fix_loop_stats := t.fix_loop_stats ++ (testLoopRun env fuel t.spec).stats.toList } := by
  have hcond := (mergeResults_fix_required_iff env.testRuns).2 hne
  simp only [stepTesting, if_pos hcond, setStatus_spec, hexit]
  rfl

theorem stepTesting_skip (env : Env) (fuel : Nat) (t : TaskState)
    (hne : (mergeResults env.testRuns).findings = []) :
    stepTesting env fuel t = BodyRes.ok (setStatus t TaskStatus.TESTING) := by
  have hcond : ¬((mergeResults env.testRuns).fix_required = true
      ∧ (mergeResults env.testRuns).findings ≠ []) := by
    rw [mergeResults_fix_required_iff]
    simp [hne]
  simp [stepTesting, hcond]

theorem stepQa_skip (env : Env) (fuel : Nat) (t : TaskState)
    (hne : (mergeResults env.qaRuns).findings = []) :
    stepQa env fuel t = BodyRes.ok (setStatus t TaskStatus.QA_CHECKING) := by
  have hcond : ¬((mergeResults env.qaRuns).fix_required = true
      ∧ (mergeResults env.qaRuns).findings ≠ []) := by
    rw [mergeResults_fix_required_iff]
    simp [hne]
  simp [stepQa, hcond]

theorem stepQa_clean (env : Env) (fuel : Nat) (t : TaskState)
    (hne : (mergeResults env.qaRuns).findings ≠ [])
    (r : FixLoopResult)
    (hexit : (qaLoopRun env fuel t.spec).exit = LoopExit.done r []) :
    stepQa env fuel t = BodyRes.ok { setStatus t TaskStatus.QA_CHECKING with
      fix_loop_stats := t.fix_loop_stats ++ (qaLoopRun env fuel t.spec).stats.toList } := by
  have hcond := (mergeResults_fix_required_iff env.qaRuns).2 hne
  simp only [stepQa, if_pos hcond, setStatus_spec, hexit]
  simp
  rfl

theorem stepQaResidual (env : Env) (fuel : Nat) (t : TaskState)
    (hne : (mergeResults env.qaRuns).findings ≠ [])
    (r : FixLoopResult) (rem : List Finding)
    (hexit : (qaLoopRun env fuel t.spec).exit = LoopExit.done r rem)
    (hrem : rem ≠ []) :
    ∃ t1, stepQa env fuel t = BodyRes.ret t1 ∧ t1.status = TaskStatus.PARTIAL
      ∧ t1.error = some ("QA: " ++ toString rem.length ++ " issues remaining after max loops") := by
  have hcond := (mergeResults_fix_required_iff env.qaRuns).2 hne
  refine ⟨{ setStatus { setStatus t TaskStatus.QA_CHECKING with
      fix_loop_stats := t.fix_loop_stats ++ (qaLoopRun env fuel t.spec).stats.toList }
      TaskStatus.PARTIAL with
      error := some ("QA: " ++ toString rem.length ++ " issues remaining after max loops") },
    ?_, rfl, rfl⟩
  simp only [stepQa, if_pos hcond, setStatus_spec, hexit, if_pos hrem]
  rfl

theorem stepUi_ok_any (env : Env) (fuel : Nat) (t : TaskState)
    (h : t.files_created ≠ [] → (mergeResults env.uiRuns).findings ≠ [] →
      ∃ r rem, (uiLoopRun env fuel t.spec).exit = LoopExit.done r rem) :
    ∃ t1, stepUi env fuel t = BodyRes.ok t1 ∧ t1.spec = t.spec
      ∧ t1.files_created = t.files_created := by
  by_cases hfc : t.files_created = []
  · exact ⟨t, stepUi_skip env fuel t hfc, rfl, rfl⟩
  · by_cases hne : (mergeResults env.uiRuns).findings = []
    · exact ⟨setStatus t TaskStatus.UI_REVIEWING, stepUi_nofind env fuel t hfc hne, rfl, rfl⟩
    · obtain ⟨r, rem, hexit⟩ := h hfc hne
      exact ⟨_, stepUi_run env fuel t hfc hne r rem hexit, rfl, rfl⟩

theorem stepTesting_ok_any (env : Env) (fuel : Nat) (t : TaskState)
    (h : (mergeResults env.testRuns).findings ≠ [] →
      ∃ r rem, (testLoopRun env fuel t.spec).exit = LoopExit.done r rem) :
    ∃ t1, stepTesting env fuel t = BodyRes.ok t1 ∧ t1.spec = t.spec
      ∧ t1.files_created = t.files_created := by
  by_cases hne : (mergeResults env.testRuns).findings = []
  · exact ⟨setStatus t TaskStatus.TESTING, stepTesting_skip env fuel t hne, rfl, rfl⟩
  · obtain ⟨r, rem, hexit⟩ := h hne
    exact ⟨_, stepTesting_run env fuel t hne r rem hexit, rfl, rfl⟩

/-- C5: whenever the QA fix-loop ends (by deadlock) with residual findings,
`process_task` sets the terminal status PARTIAL — not FAILED — and stores
the unresolved-issue count in the error field. -/
theorem qa_deadlock_partial_status (env : Env) (fuel : Nat) (p : PlanResult) (b : BuildResult)
    (hp : env.plan = Except.ok p) (hps : p.success = true)
    (hb : env.build p.spec = Except.ok b) (hbs : b.success = true)
    (hrs : (mergeResults env.reviewRuns).success = true)
    (h4 : (mergeResults env.reviewRuns).findings ≠ [] →
      ∃ r rem0, (reviewLoopRun env fuel p.spec).exit = LoopExit.done r rem0
        ∧ r ≠ FixLoopResult.FAILED)
    (h5 : b.files_created ≠ [] → (mergeResults env.uiRuns).findings ≠ [] →
      ∃ r rem0, (uiLoopRun env fuel p.spec).exit = LoopExit.done r rem0)
    (h6 : (mergeResults env.testRuns).findings ≠ [] →
      ∃ r rem0, (testLoopRun env fuel p.spec).exit = LoopExit.done r rem0)
    (hqane : (mergeResults env.qaRuns).findings ≠ [])
    (rem : List Finding)
    (hqaexit : (qaLoopRun env fuel p.spec).exit
      = LoopExit.done FixLoopResult.MAX_LOOPS_REACHED rem)
    (hrem : rem ≠ []) :
    ∃ t, processTask env fuel = some t ∧ t.status = TaskStatus.PARTIAL
      ∧ t.error = some ("QA: " ++ toString rem.length ++ " issues remaining after max loops") := by
  have h1 := stepPlanning_ok env initialTask p hp hps
  set T1 : TaskState := { setStatus initialTask TaskStatus.PLANNING with
    spec := p.spec
    files_modified := p.files_to_modify
    files_created := p.files_to_create } with hT1
  have h2 := stepBuilding_ok env T1 b hb hbs
  set T2 : TaskState := { setStatus T1 TaskStatus.BUILDING with
    files_modified := b.files_modified
    files_created := b.files_created } with hT2
  obtain ⟨sl, h3⟩ := stepReview_ok env fuel T2 hrs h4
  set T3 : TaskState := { setStatus T2 TaskStatus.REVIEWING with
    fix_loop_stats := T2.fix_loop_stats ++ sl } with hT3
  obtain ⟨t4, hu, hu_spec, hu_files⟩ := stepUi_ok_any env fuel T3 h5
  obtain ⟨t5, ht, ht_spec, ht_files⟩ := stepTesting_ok_any env fuel t4 (by
    rw [hu_spec]
    exact h6)
  obtain ⟨t6, hq, hqstatus, hqerror⟩ := stepQaResidual env fuel t5 hqane
    FixLoopResult.MAX_LOOPS_REACHED rem (by
      rw [ht_spec, hu_spec]
      exact hqaexit) hrem
  have hbody : processTaskBody env fuel = BodyRes.ret t6 := by
    unfold processTaskBody
    rw [h1, show (BodyRes.ok T1).andThen (stepBuilding env) = stepBuilding env T1 from rfl, h2,
      show (BodyRes.ok T2).andThen (stepReview env fuel) = stepReview env fuel T2 from rfl, h3,
      show (BodyRes.ok T3).andThen (stepUi env fuel) = stepUi env fuel T3 from rfl, hu,
      show (BodyRes.ok t4).andThen (stepTesting env fuel) = stepTesting env fuel t4 from rfl, ht,
      show (BodyRes.ok t5).andThen (stepQa env fuel) = stepQa env fuel t5 from rfl, hq]
    rfl
  refine ⟨t6, ?_, hqstatus, hqerror⟩
  unfold processTask
  rw [hbody]
  rfl

/-- C9: deadlocks (MAX_LOOPS_REACHED with residual findings) in the
code-review, ui-review and testing fix-loops neither stop the pipeline nor
reach the task's terminal state: their remaining findings are discarded,
every later phase still runs, and with QA reporting no findings the task
ships with no error. -/
theorem non_qa_deadlock_shipped (env : Env) (fuel : Nat) (p : PlanResult) (b : BuildResult)
    (hp : env.plan = Except.ok p) (hps : p.success = true)
    (hb : env.build p.spec = Except.ok b) (hbs : b.success = true)
    (hrs : (mergeResults env.reviewRuns).success = true)
    (hrne : (mergeResults env.reviewRuns).findings ≠ [])
    (rrem : List Finding)
    (hrexit : (reviewLoopRun env fuel p.spec).exit
      = LoopExit.done FixLoopResult.MAX_LOOPS_REACHED rrem)
    (hrrem : rrem ≠ [])
    (hfc : b.files_created ≠ [])
    (hune : (mergeResults env.uiRuns).findings ≠ [])
    (urem : List Finding)
    (huexit : (uiLoopRun env fuel p.spec).exit
      = LoopExit.done FixLoopResult.MAX_LOOPS_REACHED urem)
    (hurem : urem ≠ [])
    (htne : (mergeResults env.testRuns).findings ≠ [])
    (trem : List Finding)
    (htexit : (testLoopRun env fuel p.spec).exit
      = LoopExit.done FixLoopResult.MAX_LOOPS_REACHED trem)
    (htrem : trem ≠ [])
    (hqaempty : (mergeResults env.qaRuns).findings = []) :
    ∃ t, processTask env fuel = some t ∧ t.status = TaskStatus.SHIPPED ∧ t.error = none
      ∧ t.trace = [TaskStatus.TODO, TaskStatus.PLANNING, TaskStatus.BUILDING,
          TaskStatus.REVIEWING, TaskStatus.UI_REVIEWING, TaskStatus.TESTING,
          TaskStatus.QA_CHECKING, TaskStatus.SHIPPED] := by
  have h1 := stepPlanning_ok env initialTask p hp hps
  set T1 : TaskState := { setStatus initialTask TaskStatus.PLANNING with
    spec := p.spec
    files_modified := p.files_to_modify
    files_created := p.files_to_create } with hT1
  have h2 := stepBuilding_ok env T1 b hb hbs
  set T2 : TaskState := { setStatus T1 TaskStatus.BUILDING with
    files_modified := b.files_modified
    files_created := b.files_created } with hT2
  obtain ⟨sl, h3⟩ := stepReview_ok env fuel T2 hrs
    (fun _ => ⟨FixLoopResult.MAX_LOOPS_REACHED, rrem, hrexit, by decide⟩)
  set T3 : TaskState := { setStatus T2 TaskStatus.REVIEWING with
    fix_loop_stats := T2.fix_loop_stats ++ sl } with hT3
  have hu := stepUi_run env fuel T3 hfc hune FixLoopResult.MAX_LOOPS_REACHED urem huexit
  set T4 : TaskState := { setStatus T3 TaskStatus.UI_REVIEWING with
    fix_loop_stats := T3.fix_loop_stats ++ (uiLoopRun env fuel T3.spec).stats.toList } with hT4
  have ht := stepTesting_run env fuel T4 htne FixLoopResult.MAX_LOOPS_REACHED trem htexit
  set T5 : TaskState := { setStatus T4 TaskStatus.TESTING with
    fix_loop_stats := T4.fix_loop_stats ++ (testLoopRun env fuel T4.spec).stats.toList } with hT5
  have hq := stepQa_skip env fuel T5 hqaempty
  have hbody : processTaskBody env fuel
      = BodyRes.ok (setStatus (setStatus T5 TaskStatus.QA_CHECKING) TaskStatus.SHIPPED) := by
    unfold processTaskBody
    rw [h1, show (BodyRes.ok T1).andThen (stepBuilding env) = stepBuilding env T1 from rfl, h2,
      show (BodyRes.ok T2).andThen (stepReview env fuel) = stepReview env fuel T2 from rfl, h3,
      show (BodyRes.ok T3).andThen (stepUi env fuel) = stepUi env fuel T3 from rfl, hu,
      show (BodyRes.ok T4).andThen (stepTesting env fuel) = stepTesting env fuel T4 from rfl, ht,
      show (BodyRes.ok T5).andThen (stepQa env fuel) = stepQa env fuel T5 from rfl, hq]
    rfl
  refine ⟨setStatus (setStatus T5 TaskStatus.QA_CHECKING) TaskStatus.SHIPPED, ?_, rfl, rfl, ?_⟩
  · unfold processTask
    rw [hbody]
    rfl
  · rfl

/-- C5 (witness) finding that QA keeps reporting. -/
def qaStuck : Finding := ⟨"Q1", "critical", "q.py", "unfixable", "", "", "builder"⟩

/-- C5 (witness) environment: clean until QA, whose two instances report one
finding that every re-validation returns unchanged (deadlock). -/
def qaPartialEnv : Env :=
  { plan := Except.ok (PlanResult.mk true "spec q" [] [] "")
    build := fun _ => Except.ok (BuildResult.mk true [] [] "")
    reviewRuns := [AgentOutcome.ok []]
    reviewValidate := fun _ _ => ValidationResult.mk false []
    uiRuns := [AgentOutcome.ok []]
    uiValidate := fun _ _ => ValidationResult.mk false []
    testRuns := [AgentOutcome.ok []]
    testValidate := fun _ _ => ValidationResult.mk false []
    qaRuns := [AgentOutcome.ok [qaStuck]]
    qaValidate := fun _ _ => ValidationResult.mk true [qaStuck]
    debug := fun _ _ => DebugResult.mk false [] }

/-- C5 (witness): the theorem applied to the concrete QA-deadlock
environment. -/
theorem qa_deadlock_partial_status_witness :
    qaPartialEnv.plan = Except.ok (PlanResult.mk true "spec q" [] [] "") ∧
    (mergeResults qaPartialEnv.qaRuns).findings ≠ [] ∧
    (qaLoopRun qaPartialEnv 9 "spec q").exit
      = LoopExit.done FixLoopResult.MAX_LOOPS_REACHED [qaStuck] ∧
    ([qaStuck] ≠ ([] : List Finding)) ∧
    (∃ t, processTask qaPartialEnv 9 = some t ∧ t.status = TaskStatus.PARTIAL
      ∧ t.error = some ("QA: " ++ toString ([qaStuck].length) ++ " issues remaining after max loops")) :=
  ⟨rfl, by decide, by decide, by decide,
    qa_deadlock_partial_status qaPartialEnv 9 (PlanResult.mk true "spec q" [] [] "")
      (BuildResult.mk true [] [] "") rfl rfl rfl rfl (by decide)
      (fun h => absurd rfl h) (fun h => absurd rfl h) (fun h => absurd rfl h)
      (by decide) [qaStuck] (by decide) (by decide)⟩

/-- C9 (witness) finding the review instances keep reporting. -/
def stuckR : Finding := ⟨"R1", "major", "r.py", "stuck r", "", "", "builder"⟩

/-- C9 (witness) finding the ui-review instances keep reporting. -/
def stuckU : Finding := ⟨"U1", "major", "app.tsx", "stuck u", "", "", "builder"⟩

/-- C9 (witness) finding the tester instances keep reporting. -/
def stuckT : Finding := ⟨"T1", "major", "t.py", "stuck t", "", "", "builder"⟩

/-- C9 (witness) environment: review, ui-review and testing each deadlock on
one stubborn finding, QA reports nothing. -/
def deadlockEnv : Env :=
  { plan := Except.ok (PlanResult.mk true "spec d" [] [] "")
    build := fun _ => Except.ok (BuildResult.mk true [] ["app.tsx"] "")
    reviewRuns := [AgentOutcome.ok [stuckR]]
    reviewValidate := fun _ _ => ValidationResult.mk true [stuckR]
    uiRuns := [AgentOutcome.ok [stuckU]]
    uiValidate := fun _ _ => ValidationResult.mk true [stuckU]
    testRuns := [AgentOutcome.ok [stuckT]]
    testValidate := fun _ _ => ValidationResult.mk true [stuckT]
    qaRuns := [AgentOutcome.ok []]
    qaValidate := fun _ _ => ValidationResult.mk false []
    debug := fun _ _ => DebugResult.mk false [] }

/-- C9 (witness): the theorem applied to the concrete triple-deadlock
environment. -/
theorem non_qa_deadlock_shipped_witness :
    (mergeResults deadlockEnv.reviewRuns).findings ≠ [] ∧
    (reviewLoopRun deadlockEnv 9 "spec d").exit
      = LoopExit.done FixLoopResult.MAX_LOOPS_REACHED [stuckR] ∧
    (uiLoopRun deadlockEnv 9 "spec d").exit
      = LoopExit.done FixLoopResult.MAX_LOOPS_REACHED [stuckU] ∧
    (testLoopRun deadlockEnv 9 "spec d").exit
      = LoopExit.done FixLoopResult.MAX_LOOPS_REACHED [stuckT] ∧
    (mergeResults deadlockEnv.qaRuns).findings = [] ∧
    (∃ t, processTask deadlockEnv 9 = some t ∧ t.status = TaskStatus.SHIPPED ∧ t.error = none
      ∧ t.trace = [TaskStatus.TODO, TaskStatus.PLANNING, TaskStatus.BUILDING,
          TaskStatus.REVIEWING, TaskStatus.UI_REVIEWING, TaskStatus.TESTING,
          TaskStatus.QA_CHECKING, TaskStatus.SHIPPED]) :=
  ⟨by decide, by decide, by decide, by decide, by decide,
    non_qa_deadlock_shipped deadlockEnv 9 (PlanResult.mk true "spec d" [] [] "")
      (BuildResult.mk true [] ["app.tsx"] "") rfl rfl rfl rfl (by decide) (by decide)
      [stuckR] (by decide) (by decide) (by decide) (by decide) [stuckU] (by decide) (by decide)
      (by decide) [stuckT] (by decide) (by decide) (by decide)⟩
